import Mathlib

/-!
Verification of the citizenmon log-processing core (`pkg/processor`,
`pkg/stats`) against its natural-language specification.

The Go source is shallowly embedded:
* `time.Time` values become `Int` seconds; `ProcessLogLine`'s call to
  `ExtractLogTimestamp` is modelled by passing the extracted (or, when the
  line carries no timestamp, the substituted wall-clock) value as an
  explicit `Int` argument.
* The dynamically compiled Go regexes are embedded as `RE` terms run by a
  backtracking matcher (`findSubmatch`), which implements the
  leftmost-first submatch semantics that `regexp.FindStringSubmatch`
  documents for these (non-POSIX) patterns.
* `stats.Save` / `stats.UpdateCurrentSession` perform file or global-map
  I/O and are modelled as the identity on the in-memory records they
  persist; `p.AppendOutput` is modelled by returning the list of emitted
  message strings.
* Go's `map[string][]PendingEvent` iteration order is unspecified; the
  embedding fixes the first-appearance order of player names, which is one
  admissible order.  No theorem below depends on the order across groups.
-/

/-- The single-quote character, used pervasively by the log grammars. -/
def qc : Char := '\''

/-- Characters matched by the Go regex class `[A-Za-z0-9_]` (also RE2's
word characters for `\b`). -/
def isWordChar (c : Char) : Bool :=
  ('A' ≤ c && c ≤ 'Z') || ('a' ≤ c && c ≤ 'z') || ('0' ≤ c && c ≤ '9') || c = '_'

/-- Characters matched by `[0-9]`. -/
def isDigit09 (c : Char) : Bool := '0' ≤ c && c ≤ '9'

/-- Characters matched by `[^']`. -/
def notQuote (c : Char) : Bool := c ≠ qc

/-- Characters matched by `[^"]`. -/
def notDQuote (c : Char) : Bool := c ≠ '"'

/-- Characters matched by `[^\]]`. -/
def notRBracket (c : Char) : Bool := c ≠ ']'

/-- Characters matched by `.` (Go regexp: any character but newline). -/
def notNewline (c : Char) : Bool := c ≠ '\n'

/-- Shorthand for a string literal's character list. -/
def strL (s : String) : List Char := s.toList

/-- `isPrefixL n h` holds when `n` is a prefix of `h` (Boolean). -/
def isPrefixL : List Char → List Char → Bool
  | [], _ => true
  | _ :: _, [] => false
  | a :: as, b :: bs => a = b && isPrefixL as bs

/-- Embedding of `strings.Contains` on character lists. -/
def containsLst (n : List Char) : List Char → Bool
  | [] => isPrefixL n []
  | c :: cs => isPrefixL n (c :: cs) || containsLst n cs

/-- Embedding of `strings.Index` (first occurrence of a substring). -/
def indexOfSub (n : List Char) : List Char → Option Nat
  | [] => if isPrefixL n [] then some 0 else none
  | c :: cs =>
    if isPrefixL n (c :: cs) then some 0
    else (indexOfSub n cs).map (· + 1)

/-- First index of a character, as `strings.Index(s, "'")`. -/
def indexOfChar (c : Char) : List Char → Option Nat
  | [] => none
  | d :: ds => if d = c then some 0 else (indexOfChar c ds).map (· + 1)

/-!  ## A backtracking regex engine

The patterns compiled by `processor.go` are built from literals, one-group
captures of a character class (`([^']+)`, `([A-Za-z0-9_]+)`, `([0-9]+)`,
`([^"]+)`, `([^\]]+)`), the greedy gap `.*`, and the greedy optional
groups `(?:...)?` of the death pattern.  The `RE` type covers exactly
these constructors, and `findSubmatch` runs the usual backtracking search
(greedy, leftmost-first), which coincides with the submatch semantics of
Go's `regexp` for these patterns. -/

/-- Regex abstract syntax (see the module comment). -/
inductive RE where
  | lit : List Char → RE
  | grp : Nat → (Char → Bool) → RE
  | dotStar : RE
  | seq : RE → RE → RE
  | opt : RE → RE

/-- Capture environment: group index paired with the captured characters. -/
abbrev Caps := List (Nat × List Char)

/-- Match a literal, returning the rest of the input. -/
def litMatch : List Char → List Char → Option (List Char)
  | [], cs => some cs
  | _ :: _, [] => none
  | l :: ls, c :: cs => if l = c then litMatch ls cs else none

/-- Greedy Kleene star over a character class, with backtracking into the
continuation `k` (longest consumption is tried first). -/
def starCls (p : Char → Bool) (k : List Char → Option Caps) : List Char → Option Caps
  | [] => k []
  | c :: cs =>
    if p c then
      match starCls p k cs with
      | some r => some r
      | none => k (c :: cs)
    else k (c :: cs)

/-- Greedy `class*` continuation used after the forced first character of a
capturing `class+`; `k` receives the captured characters and the rest. -/
def manyGreedy (p : Char → Bool) (k : List Char → List Char → Option Caps)
    (acc : List Char) : List Char → Option Caps
  | [] => k acc.reverse []
  | c :: cs =>
    if p c then
      match manyGreedy p k (c :: acc) cs with
      | some r => some r
      | none => k acc.reverse (c :: cs)
    else k acc.reverse (c :: cs)

/-- The backtracking matcher in continuation-passing style.  `k` receives
the remaining input and the captures accumulated so far. -/
def reMatch : RE → List Char → Caps → (List Char → Caps → Option Caps) → Option Caps
  | .lit l, cs, caps, k =>
    match litMatch l cs with
    | some rest => k rest caps
    | none => none
  | .grp n p, cs, caps, k =>
    match cs with
    | [] => none
    | c :: cs' =>
      if p c then manyGreedy p (fun cap rest => k rest ((n, cap) :: caps)) [c] cs'
      else none
  | .dotStar, cs, caps, k => starCls notNewline (fun rest => k rest caps) cs
  | .seq a b, cs, caps, k => reMatch a cs caps (fun cs' caps' => reMatch b cs' caps' k)
  | .opt a, cs, caps, k =>
    match reMatch a cs caps k with
    | some r => some r
    | none => k cs caps

/-- Leftmost search: try a match at each start position, earliest first;
embedding of `Regexp.FindStringSubmatch` (`none` = no match). -/
def findSubmatch (r : RE) (cs : List Char) : Option Caps :=
  match reMatch r cs [] (fun _ caps => some caps) with
  | some caps => some caps
  | none =>
    match cs with
    | [] => none
    | _ :: cs' => findSubmatch r cs'

/-- Embedding of `Regexp.MatchString`. -/
def matchString (r : RE) (cs : List Char) : Bool := (findSubmatch r cs).isSome

/-- Group lookup: Go's `FindStringSubmatch` yields `""` for a group that
did not participate in the match. -/
def capStr (caps : Caps) (n : Nat) : String :=
  match caps.find? (fun pr => pr.1 = n) with
  | some pr => String.mk pr.2
  | none => ""

/-- Sequence a pattern list (right-nested; `lit []` is the empty tail). -/
def seqs : List RE → RE
  | [] => .lit []
  | r :: rs => .seq r (seqs rs)

/-- Embedding of `\bCorpse\b` matching at one position: the literal with
non-word (or absent) characters on both sides. -/
def corpseHere (prev : Option Char) (cs : List Char) : Bool :=
  (match prev with | none => true | some c => !isWordChar c)
    && isPrefixL (strL "Corpse") cs
    && (match (cs.drop 6).head? with | none => true | some c => !isWordChar c)

/-- Scan for `\bCorpse\b`, tracking the previous character. -/
def corpseScan (prev : Option Char) : List Char → Bool
  | [] => false
  | c :: cs => corpseHere prev (c :: cs) || corpseScan (some c) cs

/-- Embedding of `corpseRegex.MatchString` (`\bCorpse\b`). -/
def corpseMatch (cs : List Char) : Bool := corpseScan none cs

/-!  ## The compiled patterns of `processor.go` -/

/-- `CVehicle::OnAdvanceDestroyLevel: Vehicle '([^']+)' .*advanced from
destroy level ([0-9]+) to ([0-9]+) caused by '([^']+)' .*with '([^']+)'` -/
def vehicleRE : RE := seqs
  [ .lit (strL "CVehicle::OnAdvanceDestroyLevel: Vehicle " ++ [qc])
  , .grp 1 notQuote
  , .lit ([qc] ++ strL " ")
  , .dotStar
  , .lit (strL "advanced from destroy level ")
  , .grp 2 isDigit09
  , .lit (strL " to ")
  , .grp 3 isDigit09
  , .lit (strL " caused by " ++ [qc])
  , .grp 4 notQuote
  , .lit ([qc] ++ strL " ")
  , .dotStar
  , .lit (strL "with " ++ [qc])
  , .grp 5 notQuote
  , .lit [qc] ]

/-- `CActor::Kill: '<P>'.*killed by '<P>'` (P quoted literally, as
`regexp.QuoteMeta` guarantees). -/
def suicideRE (P : String) : RE := seqs
  [ .lit (strL "CActor::Kill: " ++ [qc] ++ strL P ++ [qc])
  , .dotStar
  , .lit (strL "killed by " ++ [qc] ++ strL P ++ [qc]) ]

/-- `CActor::Kill: '<P>'.*killed by '([^']+)'(?:.*using '([^']+)')?(?:.*with
damage type '([^']+)')?` -/
def deathRE (P : String) : RE := seqs
  [ .lit (strL "CActor::Kill: " ++ [qc] ++ strL P ++ [qc])
  , .dotStar
  , .lit (strL "killed by " ++ [qc])
  , .grp 1 notQuote
  , .lit [qc]
  , .opt (seqs [.dotStar, .lit (strL "using " ++ [qc]), .grp 2 notQuote, .lit [qc]])
  , .opt (seqs [.dotStar, .lit (strL "with damage type " ++ [qc]), .grp 3 notQuote, .lit [qc]]) ]

/-- `CActor::Kill: '([A-Za-z0-9_]+)'.*killed by '<P>'.*using '([^']+)'` -/
def methodRE (P : String) : RE := seqs
  [ .lit (strL "CActor::Kill: " ++ [qc])
  , .grp 1 isWordChar
  , .lit [qc]
  , .dotStar
  , .lit (strL "killed by " ++ [qc] ++ strL P ++ [qc])
  , .dotStar
  , .lit (strL "using " ++ [qc])
  , .grp 2 notQuote
  , .lit [qc] ]

/-- `CActor::Kill: '([A-Za-z0-9_]+)'.*killed by '<P>'` -/
def killRE (P : String) : RE := seqs
  [ .lit (strL "CActor::Kill: " ++ [qc])
  , .grp 1 isWordChar
  , .lit [qc]
  , .dotStar
  , .lit (strL "killed by " ++ [qc] ++ strL P ++ [qc]) ]

/-- `nickname: ([A-Za-z0-9_]+)` (incapacitation target). -/
def incapRE : RE := seqs [.lit (strL "nickname: "), .grp 1 isWordChar]

/-- `nickname="([^"]+)"` (identity grammar 1). -/
def nicknameRE : RE := seqs [.lit (strL "nickname=\""), .grp 1 notDQuote, .lit (strL "\"")]

/-- `Player\[([^\]]+)\]` (identity grammar 2). -/
def playerBracketRE : RE := seqs [.lit (strL "Player["), .grp 1 notRBracket, .lit (strL "]")]

/-!  ## cleanName and strings.ToLower -/

/-- Strip one trailing `_[0-9]+` suffix (the unique match of the anchored
regex `_[0-9]+$` that `cleanName` replaces with the empty string). -/
def stripNumSuffix (cs : List Char) : List Char :=
  let r := cs.reverse
  let digits := r.takeWhile isDigit09
  match r.dropWhile isDigit09 with
  | '_' :: rest => if digits.isEmpty then cs else rest.reverse
  | _ => cs

/-- `cleanName`: strip a numeric suffix, then replace `_` with spaces. -/
def cleanName (s : String) : String :=
  String.mk ((stripNumSuffix s.toList).map (fun c => if c = '_' then ' ' else c))

/-- `strings.ToLower`, restricted to the ASCII simple folding that the
comparisons against `"collision"` / `"crash"` exercise. -/
def lowerStr (s : String) : String := String.mk (s.toList.map Char.toLower)

/-!  ## Data model (stats.Stats, PendingEvent, EventAggregator, Processor) -/

/-- `stats.Stats`: four independent name→count maps (a Go map read of a
missing key yields 0, so total functions model the maps exactly). -/
structure Stats where
  kills : String → Nat
  deaths : String → Nat
  incaps : String → Nat
  appearances : String → Nat

/-- `stats.New()`. -/
def Stats.new : Stats := ⟨fun _ => 0, fun _ => 0, fun _ => 0, fun _ => 0⟩

/-- A Go map increment `m[k]++`. -/
def bump (f : String → Nat) (k : String) : String → Nat :=
  fun x => if x = k then f x + 1 else f x

/-- `processor.EventType`. -/
inductive EventType where
  | vehicleDestruction
  | playerDeath
  | vehicleSpawn
  | actorState
deriving DecidableEq, Repr

/-- `processor.PendingEvent` (the `Details` map as an association list). -/
structure PendingEvent where
  etype : EventType
  timestamp : Int
  playerName : String
  vehicleName : String := ""
  cause : String := ""
  weapon : String := ""
  rawLine : String := ""
  details : List (String × String) := []
deriving DecidableEq, Repr

instance : Inhabited PendingEvent :=
  ⟨{ etype := .vehicleDestruction, timestamp := 0, playerName := "" }⟩

/-- `processor.EventAggregator`. -/
structure EventAggregator where
  pendingEvents : List PendingEvent
  timeWindow : Int
deriving DecidableEq, Repr

/-- `NewEventAggregator()`: empty buffer, 5-second window. -/
def newEventAggregator : EventAggregator := ⟨[], 5⟩

/-- `EventAggregator.AddEvent`. -/
def addEvent (ea : EventAggregator) (e : PendingEvent) : EventAggregator :=
  { ea with pendingEvents := ea.pendingEvents ++ [e] }

/-- `processor.Processor` (UI handles and the output callback are modelled
by returning emitted messages; `Stats`/`SessionStats` as above). -/
structure Processor where
  playerName : String
  stats : Stats
  sessionStats : Stats
  lastRawLogLine : String
  eventAggregator : EventAggregator

/-!  ## The in-place exchange sort of createMissionSummary

`createMissionSummary` sorts its slice with a double loop
(`if events[i].Timestamp.After(events[j].Timestamp) { swap }`).  `innerPass`
models one sweep of the inner loop for a fixed `i` (the running minimum is
returned first; each displaced champion lands at the position where it was
beaten), `exchSort` the outer loop.  Because the sort mutates the shared
backing array, the caller's slice is sorted afterwards, which
`flushOldEvents` reflects below. -/

/-- One inner-loop sweep: returns the minimum and the rearranged rest. -/
def innerPass (x : PendingEvent) : List PendingEvent → PendingEvent × List PendingEvent
  | [] => (x, [])
  | y :: ys =>
    if y.timestamp < x.timestamp then
      let r := innerPass y ys
      (r.1, x :: r.2)
    else
      let r := innerPass x ys
      (r.1, y :: r.2)

/-- The outer loop of the exchange sort. -/
def exchSort : List PendingEvent → List PendingEvent
  | [] => []
  | x :: rest =>
    let r := innerPass x rest
    r.1 :: exchSort r.2
termination_by l => l.length
decreasing_by
  have h : ∀ (x : PendingEvent) (l : List PendingEvent),
      (innerPass x l).2.length = l.length := by
    intro x l
    induction l generalizing x with
    | nil => simp [innerPass]
    | cons y ys ih => simp only [innerPass]; split <;> simp [ih]
  simp [h]

/-!  ## Correlation and rendering -/

/-- The scan state of `createMissionSummary`'s analysis loop. -/
structure SummarySt where
  vehicleDestroyed : Bool := false
  playerDied : Bool := false
  crashCause : Bool := false
  playerName : String := ""
  vehicleName : String := ""

/-- One step of the analysis loop over the sorted events. -/
def summaryStep (st : SummarySt) (e : PendingEvent) : SummarySt :=
  match e.etype with
  | .vehicleDestruction =>
    { st with
      vehicleDestroyed := true
      vehicleName := e.vehicleName
      crashCause := st.crashCause || lowerStr e.cause = "collision" || lowerStr e.weapon = "collision" }
  | .playerDeath =>
    { st with
      playerDied := true
      playerName := e.playerName
      crashCause := st.crashCause || lowerStr e.cause = "crash" || lowerStr e.weapon = "crash" }
  | _ => st

/-- `createMissionSummary`: sort, scan, and combine the crash-death
pattern into one message ("" when no summary applies). -/
def createMissionSummary (events : List PendingEvent) : String :=
  if events.isEmpty then ""
  else
    let st := (exchSort events).foldl summaryStep {}
    if st.vehicleDestroyed && st.playerDied && st.crashCause && st.playerName != "" then
      if st.vehicleName != "" then
        "Mission Event: " ++ st.playerName ++ " crashed their " ++ cleanName st.vehicleName ++ " and died"
      else
        "Mission Event: " ++ st.playerName ++ " died in a crash"
    else ""

/-- `CreateIndividualEventMessage`. -/
def createIndividualEventMessage (e : PendingEvent) : String :=
  match e.etype with
  | .vehicleDestruction =>
    if e.vehicleName != "" then
      "Vehicle " ++ cleanName e.vehicleName ++ " was destroyed by " ++ e.cause
    else
      "Vehicle was destroyed by " ++ e.cause
  | .playerDeath =>
    if e.weapon != "" && e.weapon != "unknown" then
      "You were killed by: " ++ e.cause ++ " using " ++ e.weapon
    else
      "You died by " ++ e.cause
  | .actorState =>
    if e.cause = "corpse" then "You turned to a corpse" else "You " ++ e.cause
  | _ => e.rawLine

/-- Player names in order of first appearance (the embedding's fixed
iteration order for the Go grouping map). -/
def groupKeys : List PendingEvent → List String
  | [] => []
  | e :: rest => e.playerName :: (groupKeys (rest.filter (fun x => x.playerName ≠ e.playerName)))
termination_by l => l.length
decreasing_by exact Nat.lt_succ_of_le (List.filter_sublist _).length_le

/-- Plain concatenation-map (kept local for directly usable equations). -/
def concatMap (f : α → List β) : List α → List β
  | [] => []
  | a :: l => f a ++ concatMap f l

/-- `FlushOldEvents`: partition the buffer against the watermark, group the
old events by player, and render each group as one mission summary or as
individual messages.  The individual messages walk the group after
`createMissionSummary` has exchange-sorted the shared slice in place, hence
`exchSort` on the fall-back path. -/
def flushOldEvents (ea : EventAggregator) (currentTime : Int) :
    List String × EventAggregator :=
  let part := ea.pendingEvents.foldl
    (fun (acc : List PendingEvent × List PendingEvent) e =>
      if currentTime - e.timestamp > ea.timeWindow then (acc.1 ++ [e], acc.2)
      else (acc.1, acc.2 ++ [e]))
    ([], [])
  let oldEvents := part.1
  let messages := concatMap
    (fun k =>
      let evs := oldEvents.filter (fun e => e.playerName = k)
      let s := createMissionSummary evs
      if s = "" then (exchSort evs).map createIndividualEventMessage else [s])
    (groupKeys oldEvents)
  (messages, { ea with pendingEvents := part.2 })

/-!  ## ProcessLogLine -/

/-- Record a death for `killer` in both records (the `stats.Save` /
`UpdateCurrentSession` calls persist them and are modelled as identity). -/
def recordDeath (p : Processor) (killer : String) : Processor :=
  { p with
    stats := { p.stats with deaths := bump p.stats.deaths killer }
    sessionStats := { p.sessionStats with deaths := bump p.sessionStats.deaths killer } }

/-- Record a kill of `victim` in both records. -/
def recordKill (p : Processor) (victim : String) : Processor :=
  { p with
    stats := { p.stats with kills := bump p.stats.kills victim }
    sessionStats := { p.sessionStats with kills := bump p.sessionStats.kills victim } }

/-- Record an incapacitation of `target` in both records. -/
def recordIncap (p : Processor) (target : String) : Processor :=
  { p with
    stats := { p.stats with incaps := bump p.stats.incaps target }
    sessionStats := { p.sessionStats with incaps := bump p.sessionStats.incaps target } }

/-- Push an event into the processor's aggregator. -/
def pushEvent (p : Processor) (e : PendingEvent) : Processor :=
  { p with eventAggregator := addEvent p.eventAggregator e }

/-- The corpse/state-change and incapacitation branches at the end of
`ProcessLogLine` (reached unless an earlier branch returned). -/
def corpseIncap (p : Processor) (line : String) (cs : List Char) (t : Int) :
    Processor × List String :=
  let p2 :=
    if corpseMatch cs || containsLst (strL "Entering control state") cs then
      match indexOfSub (strL "Player " ++ [qc]) cs with
      | some idx =>
        match indexOfChar qc (cs.drop (idx + 8)) with
        | some endIdx =>
          let extracted := String.mk ((cs.drop (idx + 8)).take endIdx)
          if extracted ≠ "" ∧ extracted = p.playerName then
            pushEvent p { etype := .actorState, timestamp := t,
                          playerName := p.playerName, cause := "corpse", rawLine := line }
          else p
        | none => p
      | none => p
    else p
  if containsLst (strL "Logged an incap") cs then
    match findSubmatch incapRE cs with
    | some caps =>
      let target := capStr caps 1
      if target ≠ p2.playerName then
        (recordIncap p2 target, ["You incapacitated: " ++ target])
      else (p2, [])
    | none => (p2, [])
  else (p2, [])

/-- The vehicle-destruction branch of `ProcessLogLine`. -/
def vehiclePart (p0 : Processor) (line : String) (t : Int) : Processor :=
  let cs := line.toList
  if containsLst (strL "CVehicle::OnAdvanceDestroyLevel") cs then
    match findSubmatch vehicleRE cs with
    | some caps =>
      pushEvent p0 { etype := .vehicleDestruction, timestamp := t,
                     playerName := p0.playerName, vehicleName := capStr caps 1,
                     cause := capStr caps 4, weapon := capStr caps 5, rawLine := line,
                     details := [("destroyLevel", capStr caps 3)] }
    | none => p0
  else p0

/-- The kill/death regex cascade of `ProcessLogLine` (whose kill branches
return early), followed by the corpse/incap branches. -/
def killBranch (p1 : Processor) (line : String) (t : Int) : Processor × List String :=
  let cs := line.toList
  if containsLst (strL "CActor::Kill:") cs then
    if matchString (suicideRE p1.playerName) cs then
      let p2 := recordDeath p1 "Suicide"
      let p3 := pushEvent p2 { etype := .playerDeath, timestamp := t,
                               playerName := p1.playerName, cause := "suicide",
                               weapon := "suicide", rawLine := line }
      corpseIncap p3 line cs t
    else
      match findSubmatch (deathRE p1.playerName) cs with
      | some caps =>
        let killer := capStr caps 1
        let weapon := capStr caps 2
        let damageType := capStr caps 3
        let p2 := recordDeath p1 killer
        let p3 := pushEvent p2 { etype := .playerDeath, timestamp := t,
                                 playerName := p1.playerName, cause := killer,
                                 weapon := weapon, rawLine := line,
                                 details := [("damageType", damageType)] }
        corpseIncap p3 line cs t
      | none =>
        match findSubmatch (methodRE p1.playerName) cs with
        | some caps =>
          let victim := capStr caps 1
          let method := cleanName (capStr caps 2)
          (recordKill p1 victim, ["You killed: " ++ victim ++ " using " ++ method])
        | none =>
          match findSubmatch (killRE p1.playerName) cs with
          | some caps =>
            let victim := capStr caps 1
            (recordKill p1 victim, ["You killed: " ++ victim])
          | none => corpseIncap p1 line cs t
  else corpseIncap p1 line cs t

/-- The event-classification part of `ProcessLogLine` (after the flush):
vehicle destruction, then the kill/death cascade and corpse/incap. -/
def classify (p0 : Processor) (line : String) (t : Int) : Processor × List String :=
  killBranch (vehiclePart p0 line t) line t

/-- `ProcessLogLine`.  `t` is the timestamp `ExtractLogTimestamp` derives
from the line (or the substituted current time).  Returns the updated
processor and the messages pushed to `AppendOutput`, flush messages first,
exactly as the Go control flow emits them. -/
def processLogLine (p : Processor) (line : String) (t : Int) : Processor × List String :=
  let p0 := { p with lastRawLogLine := line }
  if p0.playerName = "" then (p0, [])
  else
    let fl := flushOldEvents p0.eventAggregator t
    let p1 := { p0 with eventAggregator := fl.2 }
    let r := classify p1 line t
    (r.1, fl.1 ++ r.2)

/-!  ## DetectPlayerName -/

/-- `strings.Trim(s, "-:[]{}\\\",'")`: the cutset of the legacy grammar. -/
def legacyCutset (c : Char) : Bool :=
  c = '-' || c = ':' || c = '[' || c = ']' || c = '{' || c = '}' ||
  c = '\\' || c = '"' || c = ',' || c = qc

/-- `strings.Trim` with the legacy cutset. -/
def trimLegacy (cs : List Char) : List Char :=
  ((cs.dropWhile legacyCutset).reverse.dropWhile legacyCutset).reverse

/-- Whitespace for `strings.Fields` (the ASCII portion). -/
def isSpaceChar (c : Char) : Bool := c = ' ' || c = '\t' || c = '\n' || c = '\r'

/-- `strings.Fields`. -/
def fieldsOf : List Char → List (List Char)
  | [] => []
  | c :: cs =>
    if isSpaceChar c then fieldsOf cs
    else
      (c :: cs.takeWhile (fun d => !isSpaceChar d)) ::
        fieldsOf (cs.dropWhile (fun d => !isSpaceChar d))
termination_by l => l.length
decreasing_by
  · exact Nat.lt_succ_self _
  · exact Nat.lt_succ_of_le (List.dropWhile_sublist _).length_le

/-- The legacy grammar: the token after the first `name` token, trimmed. -/
def legacyName (cs : List Char) : Option String :=
  let fs := fieldsOf cs
  (List.range fs.length).findSome? (fun i =>
    if fs.get? i = some (strL "name") then
      match fs.get? (i + 1) with
      | some tok => some (String.mk (trimLegacy tok))
      | none => none
    else none)

/-- `DetectPlayerName` (no-op once the identity is set).  `load` stands for
`stats.Load`, the Stats-Store read triggered by the first match.  Returns
the updated processor and the emitted notification messages. -/
def detectPlayerName (load : String → Stats) (p : Processor) (line : String) :
    Processor × List String :=
  if p.playerName ≠ "" then (p, [])
  else
    let cs := line.toList
    let tryName : Option String :=
      if containsLst (strL "nickname=") cs then
        match findSubmatch nicknameRE cs with
        | some caps => some (capStr caps 1)
        | none => none
      else none
    match tryName with
    | some nm => ({ p with playerName := nm, stats := load nm }, ["Detected player name: " ++ nm])
    | none =>
      let tryName2 : Option String :=
        if containsLst (strL "Player[") cs then
          match findSubmatch playerBracketRE cs with
          | some caps => some (capStr caps 1)
          | none => none
        else none
      match tryName2 with
      | some nm => ({ p with playerName := nm, stats := load nm }, ["Detected player name: " ++ nm])
      | none =>
        if containsLst (strL "Character:") cs && containsLst (strL "name") cs then
          match legacyName cs with
          | some nm => ({ p with playerName := nm, stats := load nm }, ["Detected player name: " ++ nm])
          | none => (p, [])
        else (p, [])

/-- Modelled from the spec: the Appearance classifier is code of this
repository that is not under `src/` — only its collaborators are there
(`stats.Stats` declares the `Appearances` counters and `ui.go` consumes
`"Player appeared:"` lines).  Per §4.3 the grammar is the `nickname="…"`
appearance form excluding self; per §4.4 both records are incremented; per
§4.6 the message `Player appeared: <name>` is emitted immediately,
bypassing the aggregator. -/
def processAppearanceLine (p : Processor) (line : String) : Processor × List String :=
  if p.playerName = "" then (p, [])
  else
    match findSubmatch nicknameRE line.toList with
    | some caps =>
      let nm := capStr caps 1
      if nm ≠ p.playerName then
        ({ p with
            stats := { p.stats with appearances := bump p.stats.appearances nm }
            sessionStats := { p.sessionStats with appearances := bump p.sessionStats.appearances nm } },
         ["Player appeared: " ++ nm])
      else (p, [])
    | none => (p, [])

/-!  ## Canonical log-line families used by the theorems -/

/-- A `CActor::Kill` line whose victim and killer slots are explicit. -/
def mkKillLine (victim killer : List Char) : List Char :=
  strL "CActor::Kill: " ++ [qc] ++ victim ++ [qc] ++
  strL " killed by " ++ [qc] ++ killer ++ [qc]

/-- A kill line carrying a `using '<weapon>'` method clause. -/
def mkMethodKillLine (victim killer weapon : List Char) : List Char :=
  mkKillLine victim killer ++ strL " using " ++ [qc] ++ weapon ++ [qc]

/-- A suicide line: both slots hold the identity, free text around the
`killed by` clause. -/
def mkSuicideLine (P : String) (mid tail : List Char) : List Char :=
  strL "CActor::Kill: " ++ [qc] ++ strL P ++ [qc] ++ mid ++
  strL "killed by " ++ [qc] ++ strL P ++ [qc] ++ tail

/-- A network message bearing the `nickname="<name>"` attribute. -/
def mkNicknameLine (name post : List Char) : List Char :=
  strL "nickname=\"" ++ name ++ strL "\"" ++ post

/-- The `using '<weapon>'` clause as a kill-line extension. -/
def usingExt (w : List Char) : List Char := strL " using " ++ ([qc] ++ (w ++ [qc]))

/-!  ## Toolkit: list and string basics -/

theorem strL_append (a b : String) : strL (a ++ b) = strL a ++ strL b := by
  simp [strL, String.toList]

theorem toList_mk (cs : List Char) : (String.mk cs).toList = cs := rfl

theorem strL_ne_nil {P : String} (h : P ≠ "") : strL P ≠ [] := by
  intro hc
  apply h
  cases P with
  | mk data => simpa [strL, String.toList] using congrArg String.mk hc

theorem suffix_append_cases {l a b : List Char} (h : l <:+ a ++ b) :
    l <:+ b ∨ ∃ a', a' <:+ a ∧ a' ≠ [] ∧ l = a' ++ b := by
  induction a with
  | nil => exact Or.inl (by simpa using h)
  | cons x xs ih =>
    rcases (List.suffix_cons_iff).1 h with h1 | h2
    · exact Or.inr ⟨x :: xs, List.suffix_rfl, by simp, by simpa using h1⟩
    · rcases ih h2 with h3 | ⟨a', ha', hne, rfl⟩
      · exact Or.inl h3
      · exact Or.inr ⟨a', ha'.trans (List.suffix_cons x xs), hne, rfl⟩

theorem all_of_suffix {p : Char → Bool} {l₁ l₂ : List Char}
    (h : l₁ <:+ l₂) (h2 : l₂.all p) : l₁.all p := by
  rw [List.all_eq_true] at *
  exact fun c hc => h2 c (h.sublist.mem hc)

theorem ne_of_mem_all {w : Char → Bool} {l xs : List Char} {c : Char}
    (hc : c ∈ l) (hw : w c = false) (hxs : xs.all w) : l ≠ xs := by
  intro h
  subst h
  have := (List.all_eq_true.1 hxs) c hc
  simp [hw] at this

/-!  ## Toolkit: litMatch -/

theorem litMatch_append (l rest : List Char) : litMatch l (l ++ rest) = some rest := by
  induction l with
  | nil => rfl
  | cons c cs ih => simp [litMatch, ih]

theorem litMatch_nil {l : List Char} (h : l ≠ []) : litMatch l [] = none := by
  cases l with
  | nil => exact absurd rfl h
  | cons c cs => rfl

/-- Two equal prefixes cancel. -/
theorem litMatch_cancel (x u v : List Char) : litMatch (x ++ u) (x ++ v) = litMatch u v := by
  induction x with
  | nil => rfl
  | cons c cs ih => simp [litMatch, ih]

/-- Aligned-boundary comparison: a literal `l₁ ++ c :: l₂` whose head part
avoids the marker `c`, matched against input `xs ++ c :: ys` where `xs`
also avoids `c`, can only proceed past the marker when `l₁ = xs`. -/
theorem litMatch_align {w : Char → Bool} {l₁ xs : List Char} {c : Char}
    (h₁ : l₁.all w = true) (hc : w c = false) (hxs : ∀ x ∈ xs, x ≠ c)
    (l₂ ys : List Char) :
    litMatch (l₁ ++ c :: l₂) (xs ++ c :: ys) =
      if l₁ = xs then litMatch l₂ ys else none := by
  induction l₁ generalizing xs with
  | nil =>
    cases xs with
    | nil => simp [litMatch]
    | cons x xs' =>
      have hx : x ≠ c := hxs x (by simp)
      have hcx : c ≠ x := fun h => hx h.symm
      simp [litMatch, hcx]
  | cons a l₁' ih =>
    have ha : w a = true := by
      have := List.all_eq_true.1 h₁ a (by simp)
      simpa using this
    have h₁' : l₁'.all w = true := by
      rw [List.all_cons, Bool.and_eq_true] at h₁
      exact h₁.2
    cases xs with
    | nil =>
      have hac : a ≠ c := fun h => by rw [h, hc] at ha; exact Bool.noConfusion ha
      simp [litMatch, hac]
    | cons x xs' =>
      have hxs' : ∀ y ∈ xs', y ≠ c := fun y hy => hxs y (by simp [hy])
      by_cases hax : a = x
      · subst hax
        have e1 : (a :: l₁') ++ c :: l₂ = [a] ++ (l₁' ++ c :: l₂) := by simp
        have e2 : (a :: xs') ++ c :: ys = [a] ++ (xs' ++ c :: ys) := by simp
        rw [e1, e2, litMatch_cancel, ih h₁' hxs']
        simp [List.cons.injEq]
      · simp [litMatch, hax, List.cons.injEq]

/-!  ## Toolkit: starCls / manyGreedy / findSubmatch -/

theorem starCls_none {p : Char → Bool} {k : List Char → Option Caps} {cs : List Char}
    (h : ∀ v, v <:+ cs → k v = none) : starCls p k cs = none := by
  induction cs with
  | nil => simpa [starCls] using h [] List.suffix_rfl
  | cons c cs' ih =>
    have hk : k (c :: cs') = none := h _ List.suffix_rfl
    have ih' : starCls p k cs' = none :=
      ih (fun v hv => h v (hv.trans (List.suffix_cons c cs')))
    by_cases hp : p c <;> simp [starCls, hp, ih', hk]

/-- If some continuation point succeeds, the greedy star succeeds. -/
theorem starCls_isSome {p : Char → Bool} {k : List Char → Option Caps}
    {xs ys : List Char} (hxs : xs.all p = true) (hk : (k ys).isSome) :
    (starCls p k (xs ++ ys)).isSome := by
  induction xs with
  | nil =>
    cases ys with
    | nil => simpa [starCls]
    | cons c cs =>
      by_cases hp : p c
      · simp only [List.nil_append, starCls, if_pos hp]
        cases hrec : starCls p k cs with
        | some r => simp
        | none => simpa using hk
      · simpa [starCls, hp] using hk
  | cons x xs' ih =>
    have hx : p x = true := by
      have := List.all_eq_true.1 hxs x (by simp)
      simpa using this
    have hxs' : xs'.all p = true := by
      rw [List.all_cons, Bool.and_eq_true] at hxs
      exact hxs.2
    have := ih hxs'
    simp only [List.cons_append, starCls, if_pos hx]
    cases hrec : starCls p k (xs' ++ ys) with
    | some r => simp
    | none => rw [hrec] at this; simp at this

/-- Greedy resolution of the star: if `ys` is the longest suffix at which
the continuation succeeds (every shorter suffix fails), the star resolves
to the continuation's value there. -/
theorem starCls_rightmost {p : Char → Bool} {k : List Char → Option Caps}
    {cs ys : List Char} {r : Caps}
    (hall : cs.all p = true) (hys : ys <:+ cs) (hk : k ys = some r)
    (hfail : ∀ v, v <:+ cs → v.length < ys.length → k v = none) :
    starCls p k cs = some r := by
  induction cs with
  | nil =>
    have : ys = [] := List.eq_nil_of_suffix_nil hys
    subst this
    simpa [starCls] using hk
  | cons c cs' ih =>
    have hc : p c = true := by
      have := List.all_eq_true.1 hall c (by simp)
      simpa using this
    have hall' : cs'.all p = true := by
      rw [List.all_cons, Bool.and_eq_true] at hall
      exact hall.2
    rcases List.suffix_cons_iff.1 hys with h1 | h2
    · -- ys is the whole input: every suffix of cs' is strictly shorter
      subst h1
      have hnone : starCls p k cs' = none :=
        starCls_none (fun v hv =>
          hfail v (hv.trans (List.suffix_cons c cs'))
            (Nat.lt_succ_of_le hv.length_le))
      simp [starCls, hc, hnone, hk]
    · have := ih hall' h2
        (fun v hv hl => hfail v (hv.trans (List.suffix_cons c cs')) hl)
      simp [starCls, hc, this]

/-- The continuation succeeding at the end of the greedy block: `xs` is
consumed in full because the next character fails the class. -/
theorem manyGreedy_some {p : Char → Bool} {k : List Char → List Char → Option Caps}
    {xs : List Char} {q : Char} {rest : List Char} {r : Caps}
    (hxs : xs.all p = true) (hq : p q = false) (acc : List Char)
    (hk : k (acc.reverse ++ xs) (q :: rest) = some r) :
    manyGreedy p k acc (xs ++ q :: rest) = some r := by
  induction xs generalizing acc with
  | nil => simpa [manyGreedy, hq] using hk
  | cons x xs' ih =>
    have hx : p x = true := by
      have := List.all_eq_true.1 hxs x (by simp)
      simpa using this
    have hxs' : xs'.all p = true := by
      rw [List.all_cons, Bool.and_eq_true] at hxs
      exact hxs.2
    have hrec := ih hxs' (x :: acc) (by simpa using hk)
    simp [manyGreedy, hx, hrec]

/-- All continuation points fail: the greedy block fails. -/
theorem manyGreedy_none {p : Char → Bool} {k : List Char → List Char → Option Caps}
    {xs : List Char} {q : Char} {rest : List Char}
    (hxs : xs.all p = true) (hq : p q = false) (acc : List Char)
    (hk : ∀ pre suf, pre ++ suf = xs → k (acc.reverse ++ pre) (suf ++ q :: rest) = none) :
    manyGreedy p k acc (xs ++ q :: rest) = none := by
  induction xs generalizing acc with
  | nil => simpa [manyGreedy, hq] using hk [] [] rfl
  | cons x xs' ih =>
    have hx : p x = true := by
      have := List.all_eq_true.1 hxs x (by simp)
      simpa using this
    have hxs' : xs'.all p = true := by
      rw [List.all_cons, Bool.and_eq_true] at hxs
      exact hxs.2
    have hrec : manyGreedy p k (x :: acc) (xs' ++ q :: rest) = none := by
      refine ih hxs' (x :: acc) (fun pre suf hps => ?_)
      have := hk (x :: pre) suf (by simp [hps])
      simpa using this
    have hk0 : k acc.reverse (x :: (xs' ++ q :: rest)) = none := by
      have := hk [] (x :: xs') rfl
      simpa using this
    simp [manyGreedy, hx, hrec, hk0]

theorem findSubmatch_of_head {r : RE} {cs : List Char} {caps : Caps}
    (h : reMatch r cs [] (fun _ caps => some caps) = some caps) :
    findSubmatch r cs = some caps := by
  cases cs <;> simp [findSubmatch, h]

theorem findSubmatch_none {r : RE} {cs : List Char}
    (h : ∀ v, v <:+ cs → reMatch r v [] (fun _ caps => some caps) = none) :
    findSubmatch r cs = none := by
  induction cs with
  | nil => simp [findSubmatch, h [] List.suffix_rfl]
  | cons c cs' ih =>
    have h0 := h _ List.suffix_rfl
    have ih' := ih (fun v hv => h v (hv.trans (List.suffix_cons c cs')))
    simp [findSubmatch, h0, ih']

theorem isPrefixL_append (n rest : List Char) : isPrefixL n (n ++ rest) = true := by
  induction n with
  | nil => rfl
  | cons c cs ih => simp [isPrefixL, ih]

theorem containsLst_of_head {n cs : List Char} (h : isPrefixL n cs = true) :
    containsLst n cs = true := by
  cases cs with
  | nil => simpa [containsLst] using h
  | cons c cs' => simp [containsLst, h]

/-!  ## Toolkit: reMatch equations -/

theorem reMatch_seq (a b : RE) (cs : List Char) (caps : Caps)
    (k : List Char → Caps → Option Caps) :
    reMatch (.seq a b) cs caps k
      = reMatch a cs caps (fun cs' caps' => reMatch b cs' caps' k) := rfl

theorem reMatch_lit_of {l cs rest : List Char} (h : litMatch l cs = some rest)
    (caps : Caps) (k : List Char → Caps → Option Caps) :
    reMatch (.lit l) cs caps k = k rest caps := by
  simp [reMatch, h]

theorem reMatch_lit_none {l cs : List Char} (h : litMatch l cs = none)
    (caps : Caps) (k : List Char → Caps → Option Caps) :
    reMatch (.lit l) cs caps k = none := by
  simp [reMatch, h]

theorem reMatch_grp_cons {n : Nat} {p : Char → Bool} {c : Char}
    (hc : p c = true) (cs : List Char) (caps : Caps)
    (k : List Char → Caps → Option Caps) :
    reMatch (.grp n p) (c :: cs) caps k
      = manyGreedy p (fun cap rest => k rest ((n, cap) :: caps)) [c] cs := by
  simp [reMatch, hc]

theorem reMatch_grp_neg {n : Nat} {p : Char → Bool} {c : Char}
    (hc : p c = false) (cs : List Char) (caps : Caps)
    (k : List Char → Caps → Option Caps) :
    reMatch (.grp n p) (c :: cs) caps k = none := by
  simp [reMatch, hc]

theorem reMatch_grp_nil {n : Nat} {p : Char → Bool} {caps : Caps}
    {k : List Char → Caps → Option Caps} :
    reMatch (.grp n p) [] caps k = none := rfl

theorem reMatch_dotStar (cs : List Char) (caps : Caps)
    (k : List Char → Caps → Option Caps) :
    reMatch .dotStar cs caps k = starCls notNewline (fun rest => k rest caps) cs := rfl

theorem reMatch_opt (a : RE) (cs : List Char) (caps : Caps)
    (k : List Char → Caps → Option Caps) :
    reMatch (.opt a) cs caps k
      = match reMatch a cs caps k with
        | some r => some r
        | none => k cs caps := rfl

/-!  ## Regex facts on the canonical line families -/

theorem nickname_find {name post : List Char} (hne : name ≠ [])
    (hall : name.all notDQuote = true) :
    findSubmatch nicknameRE (mkNicknameLine name post) = some [(1, name)] := by
  cases name with
  | nil => exact absurd rfl hne
  | cons nh ntail =>
    apply findSubmatch_of_head
    have hh : notDQuote nh = true := by
      have := List.all_eq_true.1 hall nh (by simp)
      simpa using this
    have htail : ntail.all notDQuote = true := by
      rw [List.all_cons, Bool.and_eq_true] at hall
      exact hall.2
    have hq : notDQuote '"' = false := by decide
    simp only [nicknameRE, seqs]
    rw [show mkNicknameLine (nh :: ntail) post
          = strL "nickname=\"" ++ (nh :: (ntail ++ ('"' :: post))) from by
        simp [mkNicknameLine, strL]]
    rw [reMatch_seq, reMatch_lit_of (litMatch_append _ _), reMatch_seq,
      reMatch_grp_cons hh]
    refine manyGreedy_some htail hq [nh] ?_
    rw [show ([nh].reverse ++ ntail) = nh :: ntail from by simp]
    rw [reMatch_seq,
      @reMatch_lit_of (strL "\"") _ post (by simp [litMatch, strL])]
    rfl

theorem litMatch_head_ne {a b : Char} (h : a ≠ b) (l m : List Char) :
    litMatch (a :: l) (b :: m) = none := by
  simp [litMatch, h]

theorem all_notQuote_forall {l : List Char} (h : l.all notQuote = true) :
    ∀ x ∈ l, x ≠ qc := by
  intro x hx
  have := List.all_eq_true.1 h x hx
  simpa [notQuote] using this

theorem ne_of_class {w : Char → Bool} {a b : Char} (ha : w a = true) (hb : w b = false) :
    a ≠ b :=
  fun h => by rw [h, hb] at ha; exact Bool.noConfusion ha

theorem exists_cons_of_strL {P : String} (hP : P ≠ "") :
    ∃ Ph Pt, strL P = Ph :: Pt := by
  cases hsl : strL P with
  | nil => exact absurd hsl (strL_ne_nil hP)
  | cons a l => exact ⟨a, l, rfl⟩

theorem litMatch_P_space {P : String} (hP : P ≠ "")
    (hPw : (strL P).all isWordChar = true) (l rest : List Char) :
    litMatch (strL P ++ l) (' ' :: rest) = none := by
  obtain ⟨Ph, Pt, hPh⟩ := exists_cons_of_strL hP
  have hw : isWordChar Ph = true := by
    have := List.all_eq_true.1 hPw Ph (by rw [hPh]; simp)
    simpa using this
  rw [hPh]
  exact litMatch_head_ne (ne_of_class hw (by decide)) _ _

/-- The leading literal of the suicide/death patterns against a suffix that
starts inside a quote-free block followed by a quote. -/
theorem L1_align_block {P : String} {xs ys : List Char}
    (hxs : ∀ x ∈ xs, x ≠ qc)
    (hcont : litMatch (strL P ++ [qc]) ys = none) :
    litMatch (strL "CActor::Kill: " ++ [qc] ++ strL P ++ [qc]) (xs ++ ([qc] ++ ys)) = none := by
  rw [show strL "CActor::Kill: " ++ [qc] ++ strL P ++ [qc]
        = strL "CActor::Kill: " ++ qc :: (strL P ++ [qc]) from by simp]
  rw [show xs ++ ([qc] ++ ys) = xs ++ qc :: ys from by simp]
  rw [litMatch_align (w := notQuote) (by decide) (by simp [notQuote]) hxs]
  split
  · exact hcont
  · rfl

theorem P_align_victim {P : String} {victim rest : List Char}
    (hPw : (strL P).all isWordChar = true)
    (hvq : ∀ x ∈ victim, x ≠ qc) (hvP : strL P ≠ victim) :
    litMatch (strL P ++ [qc]) (victim ++ qc :: rest) = none := by
  rw [show strL P ++ [qc] = strL P ++ qc :: ([] : List Char) from rfl]
  rw [litMatch_align (w := isWordChar) hPw (by decide) hvq]
  simp [hvP]

/-- Position 0 of a kill line whose victim is not the identity: the
suicide/death leading literal fails. -/
theorem L1_at_zero {P : String} {victim rest : List Char}
    (hPw : (strL P).all isWordChar = true)
    (hvq : ∀ x ∈ victim, x ≠ qc) (hvP : strL P ≠ victim) :
    litMatch (strL "CActor::Kill: " ++ [qc] ++ strL P ++ [qc])
      (strL "CActor::Kill: " ++ ([qc] ++ (victim ++ ([qc] ++ rest)))) = none := by
  rw [show strL "CActor::Kill: " ++ [qc] ++ strL P ++ [qc]
        = (strL "CActor::Kill: " ++ [qc]) ++ (strL P ++ [qc]) from by simp]
  rw [show strL "CActor::Kill: " ++ ([qc] ++ (victim ++ ([qc] ++ rest)))
        = (strL "CActor::Kill: " ++ [qc]) ++ (victim ++ qc :: rest) from by simp]
  rw [litMatch_cancel]
  exact P_align_victim hPw hvq hvP

/-- On a kill line whose victim differs from the identity `P`, the leading
literal `CActor::Kill: '<P>'` of the suicide and death patterns fails at
every start position. -/
theorem killLine_L1_none {P : String} {victim killer ext : List Char}
    (hP : P ≠ "") (hPw : (strL P).all isWordChar = true)
    (hvq : victim.all notQuote = true) (hvP : strL P ≠ victim)
    (hkq : killer.all notQuote = true)
    (hextP : litMatch (strL P ++ [qc]) ext = none)
    (hext : ∀ v, v <:+ ext →
      litMatch (strL "CActor::Kill: " ++ [qc] ++ strL P ++ [qc]) v = none) :
    ∀ v, v <:+ (mkKillLine victim killer ++ ext) →
      litMatch (strL "CActor::Kill: " ++ [qc] ++ strL P ++ [qc]) v = none := by
  have hL1 : strL "CActor::Kill: " ++ [qc] ++ strL P ++ [qc]
      = 'C' :: (strL "Actor::Kill: " ++ [qc] ++ strL P ++ [qc]) := by simp [strL]
  intro v hv
  rw [show mkKillLine victim killer ++ ext
        = strL "CActor::Kill: " ++ ([qc] ++ (victim ++ ([qc] ++ (strL " killed by " ++
            ([qc] ++ (killer ++ ([qc] ++ ext))))))) from by simp [mkKillLine]] at hv
  rcases suffix_append_cases hv with hv1 | ⟨a₁, ha₁, hne₁, rfl⟩
  · -- past the leading literal
    rcases suffix_append_cases hv1 with hv2 | ⟨a₂, ha₂, hne₂, rfl⟩
    · -- past the first quote
      rcases suffix_append_cases hv2 with hv3 | ⟨v', hv', hne', rfl⟩
      · -- past the victim block
        rcases suffix_append_cases hv3 with hv4 | ⟨a₄, ha₄, hne₄, rfl⟩
        · -- past the second quote
          rcases suffix_append_cases hv4 with hv5 | ⟨s', hs', hne₅, rfl⟩
          · -- past " killed by "
            rcases suffix_append_cases hv5 with hv6 | ⟨a₆, ha₆, hne₆, rfl⟩
            · -- past the third quote
              rcases suffix_append_cases hv6 with hv7 | ⟨k', hk', hne₇, rfl⟩
              · -- past the killer block
                rcases suffix_append_cases hv7 with hv8 | ⟨a₈, ha₈, hne₈, rfl⟩
                · exact hext _ hv8
                · -- v = [qc] ++ ext
                  have : a₈ = [qc] := by
                    have hm : a₈ ∈ ([qc] : List Char).tails := (List.mem_tails _ _).2 ha₈
                    simp [List.tails] at hm
                    rcases hm with h | h
                    · exact h
                    · exact absurd h hne₈
                  subst this
                  rw [hL1]
                  exact litMatch_head_ne (by decide) _ _
              · -- v = k' ++ ([qc] ++ ext), k' a nonempty suffix of killer
                exact L1_align_block
                  (fun x hx => all_notQuote_forall hkq x (hk'.sublist.mem hx)) hextP
            · -- v = a₆ ++ …, a₆ = [qc]
              have : a₆ = [qc] := by
                have hm : a₆ ∈ ([qc] : List Char).tails := (List.mem_tails _ _).2 ha₆
                simp [List.tails] at hm
                rcases hm with h | h
                · exact h
                · exact absurd h hne₆
              subst this
              rw [hL1]
              exact litMatch_head_ne (by decide) _ _
          · -- v = s' ++ …, s' a nonempty suffix of " killed by "
            have hm : s' ∈ (strL " killed by ").tails := (List.mem_tails _ _).2 hs'
            rw [show strL " killed by " = [' ','k','i','l','l','e','d',' ','b','y',' '] from rfl] at hm
            simp [List.tails] at hm
            rw [hL1]
            rcases hm with h|h|h|h|h|h|h|h|h|h|h|h <;>
              first
                | (subst h; exact litMatch_head_ne (by decide) _ _)
                | exact absurd h hne₅
        · -- v = a₄ ++ …, a₄ = [qc]
          have : a₄ = [qc] := by
            have hm : a₄ ∈ ([qc] : List Char).tails := (List.mem_tails _ _).2 ha₄
            simp [List.tails] at hm
            rcases hm with h | h
            · exact h
            · exact absurd h hne₄
          subst this
          rw [hL1]
          exact litMatch_head_ne (by decide) _ _
      · -- v = v' ++ …, v' a nonempty suffix of the victim
        exact L1_align_block
          (fun x hx => all_notQuote_forall hvq x (hv'.sublist.mem hx))
          (litMatch_P_space hP hPw _ _)
    · -- v = a₂ ++ …, a₂ = [qc]
      have : a₂ = [qc] := by
        have hm : a₂ ∈ ([qc] : List Char).tails := (List.mem_tails _ _).2 ha₂
        simp [List.tails] at hm
        rcases hm with h | h
        · exact h
        · exact absurd h hne₂
      subst this
      rw [hL1]
      exact litMatch_head_ne (by decide) _ _
  · -- v = a₁ ++ …, a₁ a nonempty suffix of "CActor::Kill: "
    have hm : a₁ ∈ (strL "CActor::Kill: ").tails := (List.mem_tails _ _).2 ha₁
    rw [show strL "CActor::Kill: "
          = ['C','A','c','t','o','r',':',':','K','i','l','l',':',' '] from rfl] at hm
    simp [List.tails] at hm
    rcases hm with h|h|h|h|h|h|h|h|h|h|h|h|h|h|h
    · -- a₁ is the whole literal: position 0
      subst h
      exact L1_at_zero hPw (all_notQuote_forall hvq) hvP
    all_goals
      first
        | (subst h; rw [hL1]; exact litMatch_head_ne (by decide) _ _)
        | exact absurd h hne₁

/-- Enumeration of the suffixes of a kill line by region. -/
theorem killLine_suffix_cases {victim killer ext v : List Char}
    (hv : v <:+ mkKillLine victim killer ++ ext) :
    (∃ a₁, a₁ <:+ strL "CActor::Kill: " ∧ a₁ ≠ [] ∧
      v = a₁ ++ ([qc] ++ (victim ++ ([qc] ++ (strL " killed by " ++
        ([qc] ++ (killer ++ ([qc] ++ ext)))))))) ∨
    v = [qc] ++ (victim ++ ([qc] ++ (strL " killed by " ++
        ([qc] ++ (killer ++ ([qc] ++ ext)))))) ∨
    (∃ v', v' <:+ victim ∧ v' ≠ [] ∧
      v = v' ++ ([qc] ++ (strL " killed by " ++ ([qc] ++ (killer ++ ([qc] ++ ext)))))) ∨
    v = [qc] ++ (strL " killed by " ++ ([qc] ++ (killer ++ ([qc] ++ ext)))) ∨
    (∃ s', s' <:+ strL " killed by " ∧ s' ≠ [] ∧
      v = s' ++ ([qc] ++ (killer ++ ([qc] ++ ext)))) ∨
    v = [qc] ++ (killer ++ ([qc] ++ ext)) ∨
    (∃ k', k' <:+ killer ∧ k' ≠ [] ∧ v = k' ++ ([qc] ++ ext)) ∨
    v = [qc] ++ ext ∨
    v <:+ ext := by
  rw [show mkKillLine victim killer ++ ext
        = strL "CActor::Kill: " ++ ([qc] ++ (victim ++ ([qc] ++ (strL " killed by " ++
            ([qc] ++ (killer ++ ([qc] ++ ext))))))) from by simp [mkKillLine]] at hv
  have qtail : ∀ (a : List Char), a <:+ [qc] → a ≠ [] → a = [qc] := by
    intro a ha hne
    have hm : a ∈ ([qc] : List Char).tails := (List.mem_tails _ _).2 ha
    simp [List.tails] at hm
    rcases hm with h | h
    · exact h
    · exact absurd h hne
  rcases suffix_append_cases hv with hv1 | ⟨a₁, ha₁, hne₁, rfl⟩
  · rcases suffix_append_cases hv1 with hv2 | ⟨a₂, ha₂, hne₂, rfl⟩
    · rcases suffix_append_cases hv2 with hv3 | ⟨v', hv', hne', rfl⟩
      · rcases suffix_append_cases hv3 with hv4 | ⟨a₄, ha₄, hne₄, rfl⟩
        · rcases suffix_append_cases hv4 with hv5 | ⟨s', hs', hne₅, rfl⟩
          · rcases suffix_append_cases hv5 with hv6 | ⟨a₆, ha₆, hne₆, rfl⟩
            · rcases suffix_append_cases hv6 with hv7 | ⟨k', hk', hne₇, rfl⟩
              · rcases suffix_append_cases hv7 with hv8 | ⟨a₈, ha₈, hne₈, rfl⟩
                · exact Or.inr (Or.inr (Or.inr (Or.inr (Or.inr (Or.inr (Or.inr (Or.inr hv8)))))))
                · rw [qtail a₈ ha₈ hne₈]
                  exact Or.inr (Or.inr (Or.inr (Or.inr (Or.inr (Or.inr (Or.inr (Or.inl rfl)))))))
              · exact Or.inr (Or.inr (Or.inr (Or.inr (Or.inr (Or.inr (Or.inl ⟨k', hk', hne₇, rfl⟩))))))
            · rw [qtail a₆ ha₆ hne₆]
              exact Or.inr (Or.inr (Or.inr (Or.inr (Or.inr (Or.inl rfl)))))
          · exact Or.inr (Or.inr (Or.inr (Or.inr (Or.inl ⟨s', hs', hne₅, rfl⟩))))
        · rw [qtail a₄ ha₄ hne₄]
          exact Or.inr (Or.inr (Or.inr (Or.inl rfl)))
      · exact Or.inr (Or.inr (Or.inl ⟨v', hv', hne', rfl⟩))
    · rw [qtail a₂ ha₂ hne₂]
      exact Or.inr (Or.inl rfl)
  · exact Or.inl ⟨a₁, ha₁, hne₁, rfl⟩

/-- The shared head shape of the kill patterns: leading literal, word-class
capture, closing quote, then an arbitrary rest pattern `R`. -/
def killHead (R : RE) : RE :=
  .seq (.lit (strL "CActor::Kill: " ++ [qc])) (.seq (.grp 1 isWordChar) (.seq (.lit [qc]) R))

theorem methodRE_eq_killHead (P : String) :
    methodRE P = killHead (seqs
      [ .dotStar
      , .lit (strL "killed by " ++ [qc] ++ strL P ++ [qc])
      , .dotStar
      , .lit (strL "using " ++ [qc])
      , .grp 2 notQuote
      , .lit [qc] ]) := rfl

theorem killRE_eq_killHead (P : String) :
    killRE P = killHead (seqs
      [ .dotStar
      , .lit (strL "killed by " ++ [qc] ++ strL P ++ [qc]) ]) := rfl

/-- Case driver for a pattern starting with a literal. -/
theorem reMatch_seqLit_cases {l : List Char} {R : RE} {cs : List Char} {caps : Caps}
    {k : List Char → Caps → Option Caps} :
    reMatch (.seq (.lit l) R) cs caps k
      = match litMatch l cs with
        | some rest => reMatch R rest caps k
        | none => none := by
  cases h : litMatch l cs <;> simp [reMatch, h]

/-- `litMatch_align` specialized to a literal that ends at the quote. -/
theorem litMatch_close_eq {w : Char → Bool} {l₁ xs : List Char}
    (h₁ : l₁.all w = true) (hc : w qc = false) (hxs : ∀ x ∈ xs, x ≠ qc) (ys : List Char) :
    litMatch (l₁ ++ [qc]) (xs ++ ([qc] ++ ys)) = if l₁ = xs then some ys else none := by
  rw [show l₁ ++ [qc] = l₁ ++ qc :: [] from rfl,
      show xs ++ ([qc] ++ ys) = xs ++ qc :: ys from by simp,
      litMatch_align h₁ hc hxs]
  split <;> simp [litMatch]

/-- A word-class capture followed by a closing quote stalls on a block that
contains a non-word character before any quote. -/
theorem grpStall {R : RE} {rest : List Char} {caps : Caps}
    {k : List Char → Caps → Option Caps}
    (g : List Char) (bad : Char) (t : List Char)
    (hg : g.all isWordChar = true) (hbad : isWordChar bad = false) (hbq : bad ≠ qc) :
    reMatch (.seq (.grp 1 isWordChar) (.seq (.lit [qc]) R)) (g ++ bad :: t ++ rest) caps k
      = none := by
  cases g with
  | nil =>
    simp only [List.nil_append, List.cons_append, reMatch_seq]
    exact reMatch_grp_neg hbad _ _ _
  | cons vh gt =>
    have hvh : isWordChar vh = true := by
      have := List.all_eq_true.1 hg vh (by simp)
      simpa using this
    have hgt : gt.all isWordChar = true := by
      rw [List.all_cons, Bool.and_eq_true] at hg
      exact hg.2
    rw [show (vh :: gt) ++ bad :: t ++ rest = vh :: (gt ++ bad :: (t ++ rest)) from by simp]
    rw [reMatch_seq, reMatch_grp_cons hvh]
    refine manyGreedy_none hgt hbad [vh] ?_
    intro pre suf hps
    cases suf with
    | nil =>
      rw [List.nil_append, reMatch_seq]
      exact reMatch_lit_none (litMatch_head_ne (fun h => hbq h.symm) _ _) _ _
    | cons sc st =>
      have hsc : isWordChar sc = true := by
        have hmem : sc ∈ gt := by
          have : sc ∈ pre ++ sc :: st := by simp
          rw [hps] at this
          exact this
        have := List.all_eq_true.1 hgt sc hmem
        simpa using this
      have : sc ≠ qc := ne_of_class hsc (by decide)
      rw [List.cons_append, reMatch_seq]
      exact reMatch_lit_none (litMatch_head_ne (fun h => this h.symm) _ _) _ _

/-- `reMatch_seqLit_cases` in the failing case. -/
theorem reMatch_seqLit_none {l : List Char} {R : RE} {cs : List Char} {caps : Caps}
    {k : List Char → Caps → Option Caps} (h : litMatch l cs = none) :
    reMatch (.seq (.lit l) R) cs caps k = none := by
  rw [reMatch_seqLit_cases, h]

/-- On a kill line whose victim contains a character outside
`[A-Za-z0-9_]`, any `killHead` pattern fails at every position of the line
(given that it also fails inside the extension `ext`). -/
theorem killHead_none_badVictim {R : RE} {victim killer ext : List Char}
    (hvq : victim.all notQuote = true)
    (g : List Char) (bad : Char) (t : List Char)
    (hsplit : victim = g ++ bad :: t)
    (hg : g.all isWordChar = true) (hbad : isWordChar bad = false)
    (hkq : killer.all notQuote = true)
    (hextnone : ∀ v, v <:+ ext →
      reMatch (killHead R) v [] (fun _ caps => some caps) = none)
    (hextgrp : reMatch (.seq (.grp 1 isWordChar) (.seq (.lit [qc]) R)) ext []
        (fun _ caps => some caps) = none) :
    findSubmatch (killHead R) (mkKillLine victim killer ++ ext) = none := by
  have hA : strL "CActor::Kill: " ++ [qc]
      = 'C' :: (strL "Actor::Kill: " ++ [qc]) := by simp [strL]
  have hAq : (strL "CActor::Kill: ").all notQuote = true := by decide
  have hqcn : notQuote qc = false := by simp [notQuote]
  have hbq : bad ≠ qc := all_notQuote_forall hvq bad (by rw [hsplit]; simp)
  apply findSubmatch_none
  intro v hv
  rcases killLine_suffix_cases hv with
    ⟨a₁, ha₁, hne₁, rfl⟩ | rfl | ⟨v', hv', hne', rfl⟩ | rfl | ⟨s', hs', hne₅, rfl⟩ |
      rfl | ⟨k', hk', hne₇, rfl⟩ | rfl | hvext
  · -- inside the leading literal
    have hm : a₁ ∈ (strL "CActor::Kill: ").tails := (List.mem_tails _ _).2 ha₁
    rw [show strL "CActor::Kill: "
          = ['C','A','c','t','o','r',':',':','K','i','l','l',':',' '] from rfl] at hm
    simp [List.tails] at hm
    rcases hm with h|h|h|h|h|h|h|h|h|h|h|h|h|h|h
    · -- the whole literal: position 0 — the word-class capture stalls on `bad`
      subst h
      rw [killHead, reMatch_seqLit_cases]
      rw [show (['C','A','c','t','o','r',':',':','K','i','l','l',':',' '] : List Char)
            ++ ([qc] ++ (victim ++ ([qc] ++ (strL " killed by " ++
              ([qc] ++ (killer ++ ([qc] ++ ext)))))))
            = (strL "CActor::Kill: " ++ [qc]) ++ (victim ++ ([qc] ++ (strL " killed by " ++
              ([qc] ++ (killer ++ ([qc] ++ ext)))))) from by simp [strL]]
      rw [litMatch_append]
      subst hsplit
      rw [show (g ++ bad :: t) ++ ([qc] ++ (strL " killed by " ++
            ([qc] ++ (killer ++ ([qc] ++ ext)))))
            = g ++ bad :: t ++ ([qc] ++ (strL " killed by " ++
            ([qc] ++ (killer ++ ([qc] ++ ext))))) from by simp]
      exact grpStall g bad t hg hbad hbq
    all_goals
      first
        | (subst h
           rw [killHead]
           exact reMatch_seqLit_none (by rw [hA]; exact litMatch_head_ne (by decide) _ _))
        | exact absurd h hne₁
  · rw [killHead]
    exact reMatch_seqLit_none (by rw [hA]; exact litMatch_head_ne (by decide) _ _)
  · -- inside the victim block
    rw [killHead, reMatch_seqLit_cases,
      litMatch_close_eq hAq hqcn
        (fun x hx => all_notQuote_forall hvq x (hv'.sublist.mem hx)) _]
    by_cases he : strL "CActor::Kill: " = v'
    · simp only [if_pos he]
      rw [show strL " killed by " ++ ([qc] ++ (killer ++ ([qc] ++ ext)))
            = ' ' :: (strL "killed by " ++ ([qc] ++ (killer ++ ([qc] ++ ext)))) from by
          simp [strL]]
      rw [reMatch_seq]
      exact reMatch_grp_neg (by decide) _ _ _
    · simp [if_neg he]
  · rw [killHead]
    exact reMatch_seqLit_none (by rw [hA]; exact litMatch_head_ne (by decide) _ _)
  · -- inside " killed by "
    have hm : s' ∈ (strL " killed by ").tails := (List.mem_tails _ _).2 hs'
    rw [show strL " killed by " = [' ','k','i','l','l','e','d',' ','b','y',' '] from rfl] at hm
    simp [List.tails] at hm
    rcases hm with h|h|h|h|h|h|h|h|h|h|h|h <;>
      first
        | (subst h
           rw [killHead]
           exact reMatch_seqLit_none (by rw [hA]; exact litMatch_head_ne (by decide) _ _))
        | exact absurd h hne₅
  · rw [killHead]
    exact reMatch_seqLit_none (by rw [hA]; exact litMatch_head_ne (by decide) _ _)
  · -- inside the killer block
    rw [killHead, reMatch_seqLit_cases,
      litMatch_close_eq hAq hqcn
        (fun x hx => all_notQuote_forall hkq x (hk'.sublist.mem hx)) _]
    by_cases he : strL "CActor::Kill: " = k'
    · simp only [if_pos he]
      exact hextgrp
    · simp [if_neg he]
  · rw [killHead]
    exact reMatch_seqLit_none (by rw [hA]; exact litMatch_head_ne (by decide) _ _)
  · exact hextnone v hvext

theorem mkMethodKillLine_eq (victim killer weapon : List Char) :
    mkMethodKillLine victim killer weapon = mkKillLine victim killer ++ usingExt weapon := by
  simp [mkMethodKillLine, usingExt]

theorem findSubmatch_seqLit_none {L : List Char} {R : RE} {cs : List Char}
    (h : ∀ v, v <:+ cs → litMatch L v = none) :
    findSubmatch (.seq (.lit L) R) cs = none :=
  findSubmatch_none (fun v hv => reMatch_seqLit_none (h v hv))

theorem all_mono {p q : Char → Bool} {l : List Char}
    (h : l.all p = true) (him : ∀ c, p c = true → q c = true) : l.all q = true := by
  rw [List.all_eq_true] at *
  exact fun c hc => him c (h c hc)

theorem wordChar_notNewline {c : Char} (h : isWordChar c = true) : notNewline c = true := by
  cases hq : notNewline c
  · have : c = '\n' := by
      by_contra hne
      simp [notNewline, hne] at hq
    subst this
    exact absurd h (by decide)
  · rfl

theorem wordChar_notQuote {c : Char} (h : isWordChar c = true) : notQuote c = true := by
  cases hq : notQuote c
  · have : c = qc := by
      by_contra hne
      simp [notQuote, hne] at hq
    subst this
    exact absurd h (by decide)
  · rfl

/-- The suicide/death leading literal fails everywhere inside a
`using '<weapon>'` extension. -/
theorem usingExt_L1_none (P : String) {w : List Char} (hwq : w.all notQuote = true) :
    ∀ v, v <:+ usingExt w →
      litMatch (strL "CActor::Kill: " ++ [qc] ++ strL P ++ [qc]) v = none := by
  have hL1 : strL "CActor::Kill: " ++ [qc] ++ strL P ++ [qc]
      = 'C' :: (strL "Actor::Kill: " ++ [qc] ++ strL P ++ [qc]) := by simp [strL]
  intro v hv
  rw [usingExt] at hv
  rcases suffix_append_cases hv with hv1 | ⟨s', hs', hne₁, rfl⟩
  · rcases suffix_append_cases hv1 with hv2 | ⟨a₂, ha₂, hne₂, rfl⟩
    · rcases suffix_append_cases hv2 with hv3 | ⟨w', hw', hne₃, rfl⟩
      · have hm : hv3 = hv3 := rfl
        have : v <:+ [qc] := hv3
        have hm2 : v ∈ ([qc] : List Char).tails := (List.mem_tails _ _).2 this
        simp [List.tails] at hm2
        rcases hm2 with h | h
        · subst h
          rw [hL1]
          exact litMatch_head_ne (by decide) _ _
        · subst h
          exact litMatch_nil (by rw [hL1]; simp)
      · exact L1_align_block
          (fun x hx => all_notQuote_forall hwq x (hw'.sublist.mem hx))
          (litMatch_nil (by simp))
    · have : a₂ = [qc] := by
        have hm : a₂ ∈ ([qc] : List Char).tails := (List.mem_tails _ _).2 ha₂
        simp [List.tails] at hm
        rcases hm with h | h
        · exact h
        · exact absurd h hne₂
      subst this
      rw [hL1]
      exact litMatch_head_ne (by decide) _ _
  · have hm : s' ∈ (strL " using ").tails := (List.mem_tails _ _).2 hs'
    rw [show strL " using " = [' ','u','s','i','n','g',' '] from rfl] at hm
    simp [List.tails] at hm
    rcases hm with h|h|h|h|h|h|h|h <;>
      first
        | (subst h; rw [hL1]; exact litMatch_head_ne (by decide) _ _)
        | exact absurd h hne₁

/-- `suicideRE` finds no match on a method-kill line whose victim is not
the identity. -/
theorem suicide_none_methodLine {P : String} {victim w : List Char}
    (hP : P ≠ "") (hPw : (strL P).all isWordChar = true)
    (hvq : victim.all notQuote = true) (hvP : strL P ≠ victim)
    (hwq : w.all notQuote = true) :
    findSubmatch (suicideRE P) (mkKillLine victim (strL P) ++ usingExt w) = none := by
  simp only [suicideRE, seqs]
  exact findSubmatch_seqLit_none
    (killLine_L1_none hP hPw hvq hvP (all_mono hPw (fun c => wordChar_notQuote))
      (by rw [show usingExt w = ' ' :: (strL "using " ++ ([qc] ++ (w ++ [qc]))) from by
            simp [usingExt, strL]]
          exact litMatch_P_space hP hPw _ _)
      (usingExt_L1_none P hwq))

/-- `deathRE` finds no match on a method-kill line whose victim is not the
identity. -/
theorem death_none_methodLine {P : String} {victim w : List Char}
    (hP : P ≠ "") (hPw : (strL P).all isWordChar = true)
    (hvq : victim.all notQuote = true) (hvP : strL P ≠ victim)
    (hwq : w.all notQuote = true) :
    findSubmatch (deathRE P) (mkKillLine victim (strL P) ++ usingExt w) = none := by
  simp only [deathRE, seqs]
  exact findSubmatch_seqLit_none
    (killLine_L1_none hP hPw hvq hvP (all_mono hPw (fun c => wordChar_notQuote))
      (by rw [show usingExt w = ' ' :: (strL "using " ++ ([qc] ++ (w ++ [qc]))) from by
            simp [usingExt, strL]]
          exact litMatch_P_space hP hPw _ _)
      (usingExt_L1_none P hwq))

theorem nil_L1_none (P : String) :
    ∀ v, v <:+ ([] : List Char) →
      litMatch (strL "CActor::Kill: " ++ [qc] ++ strL P ++ [qc]) v = none := by
  intro v hv
  rw [List.eq_nil_of_suffix_nil hv]
  exact litMatch_nil (by simp [strL])

/-- `suicideRE` finds no match on a plain kill line whose victim is not the
identity. -/
theorem suicide_none_plainLine {P : String} {victim : List Char}
    (hP : P ≠ "") (hPw : (strL P).all isWordChar = true)
    (hvq : victim.all notQuote = true) (hvP : strL P ≠ victim) :
    findSubmatch (suicideRE P) (mkKillLine victim (strL P)) = none := by
  rw [show mkKillLine victim (strL P) = mkKillLine victim (strL P) ++ [] from by simp]
  simp only [suicideRE, seqs]
  exact findSubmatch_seqLit_none
    (killLine_L1_none hP hPw hvq hvP (all_mono hPw (fun c => wordChar_notQuote))
      (litMatch_nil (by simp)) (nil_L1_none P))

/-- `deathRE` finds no match on a plain kill line whose victim is not the
identity. -/
theorem death_none_plainLine {P : String} {victim : List Char}
    (hP : P ≠ "") (hPw : (strL P).all isWordChar = true)
    (hvq : victim.all notQuote = true) (hvP : strL P ≠ victim) :
    findSubmatch (deathRE P) (mkKillLine victim (strL P)) = none := by
  rw [show mkKillLine victim (strL P) = mkKillLine victim (strL P) ++ [] from by simp]
  simp only [deathRE, seqs]
  exact findSubmatch_seqLit_none
    (killLine_L1_none hP hPw hvq hvP (all_mono hPw (fun c => wordChar_notQuote))
      (litMatch_nil (by simp)) (nil_L1_none P))

/-- Any `killHead` pattern fails at every position inside a
`using '<weapon>'` extension. -/
theorem killHead_none_usingExt {R : RE} {w : List Char} (hwq : w.all notQuote = true) :
    ∀ v, v <:+ usingExt w →
      reMatch (killHead R) v [] (fun _ caps => some caps) = none := by
  have hA : strL "CActor::Kill: " ++ [qc]
      = 'C' :: (strL "Actor::Kill: " ++ [qc]) := by simp [strL]
  have hAq : (strL "CActor::Kill: ").all notQuote = true := by decide
  have hqcn : notQuote qc = false := by simp [notQuote]
  intro v hv
  rw [usingExt] at hv
  rcases suffix_append_cases hv with hv1 | ⟨s', hs', hne₁, rfl⟩
  · rcases suffix_append_cases hv1 with hv2 | ⟨a₂, ha₂, hne₂, rfl⟩
    · rcases suffix_append_cases hv2 with hv3 | ⟨w', hw', hne₃, rfl⟩
      · have hm2 : v ∈ ([qc] : List Char).tails := (List.mem_tails _ _).2 hv3
        simp [List.tails] at hm2
        rcases hm2 with h | h
        · subst h
          rw [killHead]
          exact reMatch_seqLit_none (by rw [hA]; exact litMatch_head_ne (by decide) _ _)
        · subst h
          rw [killHead]
          exact reMatch_seqLit_none (litMatch_nil (by simp))
      · rw [show w' ++ [qc] = w' ++ ([qc] ++ ([] : List Char)) from by simp]
        rw [killHead, reMatch_seqLit_cases,
          litMatch_close_eq hAq hqcn
            (fun x hx => all_notQuote_forall hwq x (hw'.sublist.mem hx)) _]
        by_cases he : strL "CActor::Kill: " = w'
        · simp only [if_pos he]
          rw [reMatch_seq]
          exact reMatch_grp_nil
        · simp [if_neg he]
    · have : a₂ = [qc] := by
        have hm : a₂ ∈ ([qc] : List Char).tails := (List.mem_tails _ _).2 ha₂
        simp [List.tails] at hm
        rcases hm with h | h
        · exact h
        · exact absurd h hne₂
      subst this
      rw [killHead]
      exact reMatch_seqLit_none (by rw [hA]; exact litMatch_head_ne (by decide) _ _)
  · have hm : s' ∈ (strL " using ").tails := (List.mem_tails _ _).2 hs'
    rw [show strL " using " = [' ','u','s','i','n','g',' '] from rfl] at hm
    simp [List.tails] at hm
    rcases hm with h|h|h|h|h|h|h|h <;>
      first
        | (subst h
           rw [killHead]
           exact reMatch_seqLit_none (by rw [hA]; exact litMatch_head_ne (by decide) _ _))
        | exact absurd h hne₁

/-- `methodRE` and `killRE` (as `killHead` patterns) find no match on a
method-kill line whose victim contains a non-word character. -/
theorem killHead_none_methodLine {R : RE} {victim killer w : List Char}
    (hvq : victim.all notQuote = true)
    (g : List Char) (bad : Char) (t : List Char)
    (hsplit : victim = g ++ bad :: t)
    (hg : g.all isWordChar = true) (hbad : isWordChar bad = false)
    (hkq : killer.all notQuote = true) (hwq : w.all notQuote = true) :
    findSubmatch (killHead R) (mkKillLine victim killer ++ usingExt w) = none := by
  refine killHead_none_badVictim hvq g bad t hsplit hg hbad hkq
    (killHead_none_usingExt hwq) ?_
  rw [show usingExt w = ' ' :: (strL "using " ++ ([qc] ++ (w ++ [qc]))) from by
      simp [usingExt, strL]]
  rw [reMatch_seq]
  exact reMatch_grp_neg (by decide) _ _ _

/-- Inside `' :: "using '<w>'"`, the continuation `using '…` literal of
`methodRE` succeeds only at the full `"using '…"` suffix: every strictly
shorter suffix fails at the `reMatch` level. -/
theorem usingTail_fail {R : RE} {w : List Char} (hww : w.all isWordChar = true)
    {caps : Caps} {k : List Char → Caps → Option Caps} :
    ∀ v, v <:+ ' ' :: (strL "using " ++ ([qc] ++ (w ++ [qc]))) →
      v.length < (strL "using " ++ ([qc] ++ (w ++ [qc]))).length →
      reMatch (.seq (.lit (strL "using " ++ [qc])) (.seq (.grp 2 notQuote) R)) v caps k
        = none := by
  have hU : strL "using " ++ [qc] = 'u' :: (strL "sing " ++ [qc]) := by simp [strL]
  have hUq : (strL "using ").all notQuote = true := by decide
  have hqcn : notQuote qc = false := by simp [notQuote]
  intro v hv hlen
  rcases List.suffix_cons_iff.1 hv with rfl | hv1
  · simp at hlen
  · rcases suffix_append_cases hv1 with hv2 | ⟨s₂, hs₂, hne₂, rfl⟩
    · rcases suffix_append_cases hv2 with hv3 | ⟨a₃, ha₃, hne₃, rfl⟩
      · rcases suffix_append_cases hv3 with hv4 | ⟨w', hw', hne₄, rfl⟩
        · have hm2 : v ∈ ([qc] : List Char).tails := (List.mem_tails _ _).2 hv4
          simp [List.tails] at hm2
          rcases hm2 with h | h
          · subst h
            exact reMatch_seqLit_none (by rw [hU]; exact litMatch_head_ne (by decide) _ _)
          · subst h
            exact reMatch_seqLit_none (litMatch_nil (by simp))
        · have hwq' : ∀ x ∈ w', x ≠ qc := fun x hx =>
            ne_of_class (List.all_eq_true.1 (all_of_suffix hw' hww) x hx) (by decide)
          rw [show w' ++ [qc] = w' ++ ([qc] ++ ([] : List Char)) from by simp]
          rw [reMatch_seqLit_cases, litMatch_close_eq hUq hqcn hwq' _]
          by_cases he : strL "using " = w'
          · simp only [if_pos he]
            rw [reMatch_seq]
            exact reMatch_grp_nil
          · simp [if_neg he]
      · have : a₃ = [qc] := by
          have hm : a₃ ∈ ([qc] : List Char).tails := (List.mem_tails _ _).2 ha₃
          simp [List.tails] at hm
          rcases hm with h | h
          · exact h
          · exact absurd h hne₃
        subst this
        exact reMatch_seqLit_none (by rw [hU]; exact litMatch_head_ne (by decide) _ _)
    · have hm : s₂ ∈ (strL "using ").tails := (List.mem_tails _ _).2 hs₂
      rw [show strL "using " = ['u','s','i','n','g',' '] from rfl] at hm
      simp [List.tails] at hm
      rcases hm with h|h|h|h|h|h|h
      · subst h
        rw [show (['u','s','i','n','g',' '] : List Char) ++ ([qc] ++ (w ++ [qc]))
              = strL "using " ++ ([qc] ++ (w ++ [qc])) from by simp [strL]] at hlen
        exact absurd hlen (by simp)
      all_goals
        first
          | (subst h
             exact reMatch_seqLit_none (by rw [hU]; exact litMatch_head_ne (by decide) _ _))
          | exact absurd h hne₂

/-- On a method-kill line for identity `P`, the `killed by '<P>'` literal
fails at every strictly shorter suffix of the post-victim region. -/
theorem KBfull_none_methodMid {P : String} {w : List Char}
    (hP : P ≠ "") (hPw : (strL P).all isWordChar = true) (hww : w.all isWordChar = true) :
    ∀ v, v <:+ ' ' :: (strL "killed by " ++ ([qc] ++ (strL P ++ ([qc] ++
        (' ' :: (strL "using " ++ ([qc] ++ (w ++ [qc])))))))) →
      v.length < (strL "killed by " ++ ([qc] ++ (strL P ++ ([qc] ++
        (' ' :: (strL "using " ++ ([qc] ++ (w ++ [qc])))))))).length →
      litMatch (strL "killed by " ++ [qc] ++ strL P ++ [qc]) v = none := by
  have hKB : strL "killed by " ++ [qc] ++ strL P ++ [qc]
      = 'k' :: (strL "illed by " ++ [qc] ++ strL P ++ [qc]) := by simp [strL]
  have hKBq : (strL "killed by ").all notQuote = true := by decide
  have hqcn : notQuote qc = false := by simp [notQuote]
  intro v hv hlen
  rcases List.suffix_cons_iff.1 hv with rfl | hv1
  · simp at hlen
  · rcases suffix_append_cases hv1 with hv2 | ⟨s₁, hs₁, hne₁, rfl⟩
    · rcases suffix_append_cases hv2 with hv3 | ⟨a₂, ha₂, hne₂, rfl⟩
      · rcases suffix_append_cases hv3 with hv4 | ⟨P', hP', hneP, rfl⟩
        · rcases suffix_append_cases hv4 with hv5 | ⟨a₄, ha₄, hne₄, rfl⟩
          · -- inside the trailing " using '<w>'" region
            rcases List.suffix_cons_iff.1 hv5 with rfl | hv6
            · rw [hKB]
              exact litMatch_head_ne (by decide) _ _
            · rcases suffix_append_cases hv6 with hv7 | ⟨s₂, hs₂, hne₅, rfl⟩
              · rcases suffix_append_cases hv7 with hv8 | ⟨a₆, ha₆, hne₆, rfl⟩
                · rcases suffix_append_cases hv8 with hv9 | ⟨w', hw', hne₇, rfl⟩
                  · have hm2 : v ∈ ([qc] : List Char).tails := (List.mem_tails _ _).2 hv9
                    simp [List.tails] at hm2
                    rcases hm2 with h | h
                    · subst h
                      rw [hKB]
                      exact litMatch_head_ne (by decide) _ _
                    · subst h
                      exact litMatch_nil (by simp)
                  · have hwq' : ∀ x ∈ w', x ≠ qc := fun x hx =>
                      ne_of_class (List.all_eq_true.1 (all_of_suffix hw' hww) x hx) (by decide)
                    rw [show strL "killed by " ++ [qc] ++ strL P ++ [qc]
                          = strL "killed by " ++ qc :: (strL P ++ [qc]) from by simp]
                    rw [show w' ++ [qc] = w' ++ qc :: ([] : List Char) from by simp]
                    rw [litMatch_align hKBq hqcn hwq']
                    split
                    · exact litMatch_nil (by simp)
                    · rfl
                · have : a₆ = [qc] := by
                    have hm : a₆ ∈ ([qc] : List Char).tails := (List.mem_tails _ _).2 ha₆
                    simp [List.tails] at hm
                    rcases hm with h | h
                    · exact h
                    · exact absurd h hne₆
                  subst this
                  rw [hKB]
                  exact litMatch_head_ne (by decide) _ _
              · have hm : s₂ ∈ (strL "using ").tails := (List.mem_tails _ _).2 hs₂
                rw [show strL "using " = ['u','s','i','n','g',' '] from rfl] at hm
                simp [List.tails] at hm
                rcases hm with h|h|h|h|h|h|h <;>
                  first
                    | (subst h; rw [hKB]; exact litMatch_head_ne (by decide) _ _)
                    | exact absurd h hne₅
          · have : a₄ = [qc] := by
              have hm : a₄ ∈ ([qc] : List Char).tails := (List.mem_tails _ _).2 ha₄
              simp [List.tails] at hm
              rcases hm with h | h
              · exact h
              · exact absurd h hne₄
            subst this
            rw [hKB]
            exact litMatch_head_ne (by decide) _ _
        · -- inside the identity block
          have hPq' : ∀ x ∈ P', x ≠ qc := fun x hx =>
            ne_of_class (List.all_eq_true.1 (all_of_suffix hP' hPw) x hx) (by decide)
          rw [show strL "killed by " ++ [qc] ++ strL P ++ [qc]
                = strL "killed by " ++ qc :: (strL P ++ [qc]) from by simp]
          rw [show P' ++ ([qc] ++ (' ' :: (strL "using " ++ ([qc] ++ (w ++ [qc])))))
                = P' ++ qc :: (' ' :: (strL "using " ++ ([qc] ++ (w ++ [qc])))) from by simp]
          rw [litMatch_align hKBq hqcn hPq']
          split
          · exact litMatch_P_space hP hPw _ _
          · rfl
      · have : a₂ = [qc] := by
          have hm : a₂ ∈ ([qc] : List Char).tails := (List.mem_tails _ _).2 ha₂
          simp [List.tails] at hm
          rcases hm with h | h
          · exact h
          · exact absurd h hne₂
        subst this
        rw [hKB]
        exact litMatch_head_ne (by decide) _ _
    · have hm : s₁ ∈ (strL "killed by ").tails := (List.mem_tails _ _).2 hs₁
      rw [show strL "killed by " = ['k','i','l','l','e','d',' ','b','y',' '] from rfl] at hm
      simp [List.tails] at hm
      rcases hm with h|h|h|h|h|h|h|h|h|h|h
      · subst h
        rw [show (['k','i','l','l','e','d',' ','b','y',' '] : List Char) ++ ([qc] ++
              (strL P ++ ([qc] ++ (' ' :: (strL "using " ++ ([qc] ++ (w ++ [qc])))))))
              = strL "killed by " ++ ([qc] ++ (strL P ++ ([qc] ++
                (' ' :: (strL "using " ++ ([qc] ++ (w ++ [qc]))))))) from by simp [strL]] at hlen
        exact absurd hlen (by simp)
      all_goals
        first
          | (subst h; rw [hKB]; exact litMatch_head_ne (by decide) _ _)
          | exact absurd h hne₁

theorem all_append₂ {p : Char → Bool} {a b : List Char}
    (ha : a.all p = true) (hb : b.all p = true) : (a ++ b).all p = true := by
  simp [List.all_append, ha, hb]

theorem all_cons₂ {p : Char → Bool} {c : Char} {l : List Char}
    (hc : p c = true) (hl : l.all p = true) : (c :: l).all p = true := by
  simp [List.all_cons, hc, hl]

/-- `methodRE` on a canonical method-kill line: leftmost match at position
0 capturing the victim and the weapon. -/
theorem methodRE_find {P : String} {victim w : List Char}
    (hP : P ≠ "") (hPw : (strL P).all isWordChar = true)
    (hvw : victim.all isWordChar = true) (hvne : victim ≠ [])
    (hww : w.all isWordChar = true) (hwne : w ≠ []) :
    findSubmatch (methodRE P) (mkKillLine victim (strL P) ++ usingExt w)
      = some [(2, w), (1, victim)] := by
  have hPn : (strL P).all notNewline = true := all_mono hPw (fun c => wordChar_notNewline)
  have hwn : w.all notNewline = true := all_mono hww (fun c => wordChar_notNewline)
  apply findSubmatch_of_head
  cases victim with
  | nil => exact absurd rfl hvne
  | cons vh vt =>
    cases w with
    | nil => exact absurd rfl hwne
    | cons wh wt =>
      have hvh : isWordChar vh = true := by
        have := List.all_eq_true.1 hvw vh (by simp)
        simpa using this
      have hvt : vt.all isWordChar = true := by
        rw [List.all_cons, Bool.and_eq_true] at hvw
        exact hvw.2
      have hwh : notQuote wh = true :=
        wordChar_notQuote (by have := List.all_eq_true.1 hww wh (by simp); simpa using this)
      have hwt : wt.all notQuote = true := by
        refine all_mono ?_ (fun c => wordChar_notQuote)
        rw [List.all_cons, Bool.and_eq_true] at hww
        exact hww.2
      rw [show mkKillLine (vh :: vt) (strL P) ++ usingExt (wh :: wt)
            = (strL "CActor::Kill: " ++ [qc]) ++ (vh :: (vt ++ qc ::
              (' ' :: (strL "killed by " ++ ([qc] ++ (strL P ++ ([qc] ++
                (' ' :: (strL "using " ++ ([qc] ++ ((wh :: wt) ++ [qc]))))))))))) from by
          simp [mkKillLine, usingExt, strL]]
      simp only [methodRE, seqs]
      rw [reMatch_seq, reMatch_lit_of (litMatch_append _ _)]
      rw [reMatch_seq, reMatch_grp_cons hvh]
      refine manyGreedy_some hvt (by decide) [vh] ?_
      rw [show ([vh].reverse ++ vt) = vh :: vt from by simp]
      rw [reMatch_seq,
        reMatch_lit_of (show litMatch [qc] (qc :: (' ' :: (strL "killed by " ++ ([qc] ++
          (strL P ++ ([qc] ++ (' ' :: (strL "using " ++ ([qc] ++ ((wh :: wt) ++ [qc])))))))))) =
          some (' ' :: (strL "killed by " ++ ([qc] ++ (strL P ++ ([qc] ++
            (' ' :: (strL "using " ++ ([qc] ++ ((wh :: wt) ++ [qc]))))))))) from by
          simp [litMatch])]
      rw [reMatch_seq, reMatch_dotStar]
      refine starCls_rightmost ?_ (List.suffix_cons _ _) ?_ ?_
      · -- every character of the region is not a newline
        exact all_cons₂ (by decide) (all_append₂ (by decide) (all_append₂ (by decide)
          (all_append₂ hPn (all_append₂ (by decide) (all_cons₂ (by decide)
            (all_append₂ (by decide) (all_append₂ (by decide)
              (all_append₂ hwn (by decide)))))))))
      · -- the continuation succeeds at the "killed by '<P>'…" suffix
        rw [show strL "killed by " ++ ([qc] ++ (strL P ++ ([qc] ++
              (' ' :: (strL "using " ++ ([qc] ++ ((wh :: wt) ++ [qc])))))))
              = (strL "killed by " ++ [qc] ++ strL P ++ [qc]) ++
                (' ' :: (strL "using " ++ ([qc] ++ ((wh :: wt) ++ [qc])))) from by simp]
        rw [reMatch_seq, reMatch_lit_of (litMatch_append _ _)]
        rw [reMatch_seq, reMatch_dotStar]
        refine starCls_rightmost ?_ (List.suffix_cons _ _) ?_ ?_
        · exact all_cons₂ (by decide) (all_append₂ (by decide) (all_append₂ (by decide)
            (all_append₂ hwn (by decide))))
        · -- the "using '<w>'" literal, the weapon capture, the final quote
          rw [show strL "using " ++ ([qc] ++ ((wh :: wt) ++ [qc]))
                = (strL "using " ++ [qc]) ++ (wh :: (wt ++ qc :: ([] : List Char))) from by simp]
          rw [reMatch_seq, reMatch_lit_of (litMatch_append _ _)]
          rw [reMatch_seq, reMatch_grp_cons hwh]
          refine manyGreedy_some hwt (by simp [notQuote]) [wh] ?_
          rw [show ([wh].reverse ++ wt) = wh :: wt from by simp]
          rw [reMatch_seq,
            reMatch_lit_of (show litMatch [qc] (qc :: ([] : List Char)) = some [] from by
              simp [litMatch])]
          rfl
        · -- strictly shorter suffixes fail
          intro v hsuf hlen
          exact usingTail_fail hww v hsuf hlen
      · -- strictly shorter suffixes fail
        intro v hsuf hlen
        exact reMatch_seqLit_none (KBfull_none_methodMid hP hPw hww v hsuf hlen)

/-- On a plain kill line for identity `P`, the `killed by '<P>'` literal
fails at every strictly shorter suffix of the post-victim region. -/
theorem KBfull_none_killMid {P : String}
    (hP : P ≠ "") (hPw : (strL P).all isWordChar = true) :
    ∀ v, v <:+ ' ' :: (strL "killed by " ++ ([qc] ++ (strL P ++ [qc]))) →
      v.length < (strL "killed by " ++ ([qc] ++ (strL P ++ [qc]))).length →
      litMatch (strL "killed by " ++ [qc] ++ strL P ++ [qc]) v = none := by
  have hKB : strL "killed by " ++ [qc] ++ strL P ++ [qc]
      = 'k' :: (strL "illed by " ++ [qc] ++ strL P ++ [qc]) := by simp [strL]
  have hKBq : (strL "killed by ").all notQuote = true := by decide
  have hqcn : notQuote qc = false := by simp [notQuote]
  intro v hv hlen
  rcases List.suffix_cons_iff.1 hv with rfl | hv1
  · simp at hlen
  · rcases suffix_append_cases hv1 with hv2 | ⟨s₁, hs₁, hne₁, rfl⟩
    · rcases suffix_append_cases hv2 with hv3 | ⟨a₂, ha₂, hne₂, rfl⟩
      · rcases suffix_append_cases hv3 with hv4 | ⟨P', hP', hneP, rfl⟩
        · have hm2 : v ∈ ([qc] : List Char).tails := (List.mem_tails _ _).2 hv4
          simp [List.tails] at hm2
          rcases hm2 with h | h
          · subst h
            rw [hKB]
            exact litMatch_head_ne (by decide) _ _
          · subst h
            exact litMatch_nil (by simp)
        · have hPq' : ∀ x ∈ P', x ≠ qc := fun x hx =>
            ne_of_class (List.all_eq_true.1 (all_of_suffix hP' hPw) x hx) (by decide)
          rw [show strL "killed by " ++ [qc] ++ strL P ++ [qc]
                = strL "killed by " ++ qc :: (strL P ++ [qc]) from by simp]
          rw [show P' ++ [qc] = P' ++ qc :: ([] : List Char) from by simp]
          rw [litMatch_align hKBq hqcn hPq']
          split
          · exact litMatch_nil (by simp)
          · rfl
      · have : a₂ = [qc] := by
          have hm : a₂ ∈ ([qc] : List Char).tails := (List.mem_tails _ _).2 ha₂
          simp [List.tails] at hm
          rcases hm with h | h
          · exact h
          · exact absurd h hne₂
        subst this
        rw [hKB]
        exact litMatch_head_ne (by decide) _ _
    · have hm : s₁ ∈ (strL "killed by ").tails := (List.mem_tails _ _).2 hs₁
      rw [show strL "killed by " = ['k','i','l','l','e','d',' ','b','y',' '] from rfl] at hm
      simp [List.tails] at hm
      rcases hm with h|h|h|h|h|h|h|h|h|h|h
      · subst h
        rw [show (['k','i','l','l','e','d',' ','b','y',' '] : List Char) ++ ([qc] ++
              (strL P ++ [qc]))
              = strL "killed by " ++ ([qc] ++ (strL P ++ [qc])) from by simp [strL]] at hlen
        exact absurd hlen (by simp)
      all_goals
        first
          | (subst h; rw [hKB]; exact litMatch_head_ne (by decide) _ _)
          | exact absurd h hne₁

/-- `killRE` on a canonical plain kill line: leftmost match at position 0
capturing the victim. -/
theorem killRE_find {P : String} {victim : List Char}
    (hP : P ≠ "") (hPw : (strL P).all isWordChar = true)
    (hvw : victim.all isWordChar = true) (hvne : victim ≠ []) :
    findSubmatch (killRE P) (mkKillLine victim (strL P)) = some [(1, victim)] := by
  have hPn : (strL P).all notNewline = true := all_mono hPw (fun c => wordChar_notNewline)
  apply findSubmatch_of_head
  cases victim with
  | nil => exact absurd rfl hvne
  | cons vh vt =>
    have hvh : isWordChar vh = true := by
      have := List.all_eq_true.1 hvw vh (by simp)
      simpa using this
    have hvt : vt.all isWordChar = true := by
      rw [List.all_cons, Bool.and_eq_true] at hvw
      exact hvw.2
    rw [show mkKillLine (vh :: vt) (strL P)
          = (strL "CActor::Kill: " ++ [qc]) ++ (vh :: (vt ++ qc ::
            (' ' :: (strL "killed by " ++ ([qc] ++ (strL P ++ [qc])))))) from by
        simp [mkKillLine, strL]]
    simp only [killRE, seqs]
    rw [reMatch_seq, reMatch_lit_of (litMatch_append _ _)]
    rw [reMatch_seq, reMatch_grp_cons hvh]
    refine manyGreedy_some hvt (by decide) [vh] ?_
    rw [show ([vh].reverse ++ vt) = vh :: vt from by simp]
    rw [reMatch_seq,
      reMatch_lit_of (show litMatch [qc] (qc :: (' ' :: (strL "killed by " ++ ([qc] ++
        (strL P ++ [qc]))))) = some (' ' :: (strL "killed by " ++ ([qc] ++
          (strL P ++ [qc])))) from by simp [litMatch])]
    rw [reMatch_seq, reMatch_dotStar]
    refine starCls_rightmost ?_ (List.suffix_cons _ _) ?_ ?_
    · exact all_cons₂ (by decide) (all_append₂ (by decide) (all_append₂ (by decide)
        (all_append₂ hPn (by decide))))
    · rw [show strL "killed by " ++ ([qc] ++ (strL P ++ [qc]))
            = (strL "killed by " ++ [qc] ++ strL P ++ [qc]) ++ [] from by simp]
      rw [reMatch_seq, reMatch_lit_of (litMatch_append _ _)]
      rfl
    · intro v hsuf hlen
      exact reMatch_seqLit_none (KBfull_none_killMid hP hPw v hsuf hlen)

theorem reMatch_opt_none {a : RE} {cs : List Char} {caps : Caps}
    {k : List Char → Caps → Option Caps} (h : reMatch a cs caps k = none) :
    reMatch (.opt a) cs caps k = k cs caps := by
  simp [reMatch, h]

theorem optTail_nil_none {L : List Char} {R : RE} (hL : L ≠ []) (caps : Caps)
    (k : List Char → Caps → Option Caps) :
    reMatch (.seq .dotStar (.seq (.lit L) R)) [] caps k = none := by
  rw [reMatch_seq, reMatch_dotStar]
  simp only [starCls]
  exact reMatch_seqLit_none (litMatch_nil hL)

/-- On a death line, the optional `killed by '…'` continuation of `deathRE`
fails at every strictly shorter suffix of the post-identity region. -/
theorem KB2_fail_deathMid {R : RE} {killer : List Char}
    (hkq : killer.all notQuote = true) {caps : Caps}
    {k : List Char → Caps → Option Caps} :
    ∀ v, v <:+ ' ' :: (strL "killed by " ++ ([qc] ++ (killer ++ [qc]))) →
      v.length < (strL "killed by " ++ ([qc] ++ (killer ++ [qc]))).length →
      reMatch (.seq (.lit (strL "killed by " ++ [qc])) (.seq (.grp 1 notQuote) R)) v caps k
        = none := by
  have hKB2 : strL "killed by " ++ [qc] = 'k' :: (strL "illed by " ++ [qc]) := by
    simp [strL]
  have hKBq : (strL "killed by ").all notQuote = true := by decide
  have hqcn : notQuote qc = false := by simp [notQuote]
  intro v hv hlen
  rcases List.suffix_cons_iff.1 hv with rfl | hv1
  · simp at hlen
  · rcases suffix_append_cases hv1 with hv2 | ⟨s₁, hs₁, hne₁, rfl⟩
    · rcases suffix_append_cases hv2 with hv3 | ⟨a₂, ha₂, hne₂, rfl⟩
      · rcases suffix_append_cases hv3 with hv4 | ⟨k', hk', hnek, rfl⟩
        · have hm2 : v ∈ ([qc] : List Char).tails := (List.mem_tails _ _).2 hv4
          simp [List.tails] at hm2
          rcases hm2 with h | h
          · subst h
            exact reMatch_seqLit_none (by rw [hKB2]; exact litMatch_head_ne (by decide) _ _)
          · subst h
            exact reMatch_seqLit_none (litMatch_nil (by simp))
        · have hkq' : ∀ x ∈ k', x ≠ qc := fun x hx =>
            all_notQuote_forall hkq x (hk'.sublist.mem hx)
          rw [show k' ++ [qc] = k' ++ ([qc] ++ ([] : List Char)) from by simp]
          rw [reMatch_seqLit_cases, litMatch_close_eq hKBq hqcn hkq' _]
          by_cases he : strL "killed by " = k'
          · simp only [if_pos he]
            rw [reMatch_seq]
            exact reMatch_grp_nil
          · simp [if_neg he]
      · have : a₂ = [qc] := by
          have hm : a₂ ∈ ([qc] : List Char).tails := (List.mem_tails _ _).2 ha₂
          simp [List.tails] at hm
          rcases hm with h | h
          · exact h
          · exact absurd h hne₂
        subst this
        exact reMatch_seqLit_none (by rw [hKB2]; exact litMatch_head_ne (by decide) _ _)
    · have hm : s₁ ∈ (strL "killed by ").tails := (List.mem_tails _ _).2 hs₁
      rw [show strL "killed by " = ['k','i','l','l','e','d',' ','b','y',' '] from rfl] at hm
      simp [List.tails] at hm
      rcases hm with h|h|h|h|h|h|h|h|h|h|h
      · subst h
        rw [show (['k','i','l','l','e','d',' ','b','y',' '] : List Char) ++ ([qc] ++
              (killer ++ [qc]))
              = strL "killed by " ++ ([qc] ++ (killer ++ [qc])) from by simp [strL]] at hlen
        exact absurd hlen (by simp)
      all_goals
        first
          | (subst h
             exact reMatch_seqLit_none (by rw [hKB2]; exact litMatch_head_ne (by decide) _ _))
          | exact absurd h hne₁

/-- `deathRE` on a canonical death line: leftmost match at position 0
capturing the killer; the optional weapon and damage-type groups do not
participate. -/
theorem deathRE_find {P : String} {killer : List Char}
    (hP : P ≠ "") (hPw : (strL P).all isWordChar = true)
    (hkq : killer.all notQuote = true) (hkn : killer.all notNewline = true)
    (hkne : killer ≠ []) :
    findSubmatch (deathRE P) (mkKillLine (strL P) killer) = some [(1, killer)] := by
  apply findSubmatch_of_head
  cases killer with
  | nil => exact absurd rfl hkne
  | cons kh kt =>
    have hkh : notQuote kh = true := by
      have := List.all_eq_true.1 hkq kh (by simp)
      simpa using this
    have hkt : kt.all notQuote = true := by
      rw [List.all_cons, Bool.and_eq_true] at hkq
      exact hkq.2
    rw [show mkKillLine (strL P) (kh :: kt)
          = (strL "CActor::Kill: " ++ [qc] ++ strL P ++ [qc]) ++
            (' ' :: (strL "killed by " ++ ([qc] ++ ((kh :: kt) ++ [qc])))) from by
        simp [mkKillLine, strL]]
    simp only [deathRE, seqs]
    rw [reMatch_seq, reMatch_lit_of (litMatch_append _ _)]
    rw [reMatch_seq, reMatch_dotStar]
    refine starCls_rightmost ?_ (List.suffix_cons _ _) ?_ ?_
    · exact all_cons₂ (by decide) (all_append₂ (by decide) (all_append₂ (by decide)
        (all_append₂ hkn (by decide))))
    · rw [show strL "killed by " ++ ([qc] ++ ((kh :: kt) ++ [qc]))
            = (strL "killed by " ++ [qc]) ++ (kh :: (kt ++ qc :: ([] : List Char))) from by
          simp]
      rw [reMatch_seq, reMatch_lit_of (litMatch_append _ _)]
      rw [reMatch_seq, reMatch_grp_cons hkh]
      refine manyGreedy_some hkt (by simp [notQuote]) [kh] ?_
      rw [show ([kh].reverse ++ kt) = kh :: kt from by simp]
      rw [reMatch_seq,
        reMatch_lit_of (show litMatch [qc] (qc :: ([] : List Char)) = some [] from by
          simp [litMatch])]
      rw [reMatch_seq, reMatch_opt_none (optTail_nil_none (by simp) _ _)]
      rw [reMatch_seq, reMatch_opt_none (optTail_nil_none (by simp) _ _)]
      rfl
    · intro v hsuf hlen
      exact KB2_fail_deathMid hkq v hsuf hlen

/-- On a death line, the final `killed by '<P>'` literal of `suicideRE`
fails at every suffix of the post-identity region when the killer differs
from the identity. -/
theorem suicideTail_none_deathMid {P : String} {killer : List Char}
    (hP : P ≠ "") (hPw : (strL P).all isWordChar = true)
    (hkq : killer.all notQuote = true) (hkP : strL P ≠ killer) :
    ∀ v, v <:+ ' ' :: (strL "killed by " ++ ([qc] ++ (killer ++ [qc]))) →
      litMatch (strL "killed by " ++ [qc] ++ strL P ++ [qc]) v = none := by
  have hKB : strL "killed by " ++ [qc] ++ strL P ++ [qc]
      = 'k' :: (strL "illed by " ++ [qc] ++ strL P ++ [qc]) := by simp [strL]
  have hKBq : (strL "killed by ").all notQuote = true := by decide
  have hqcn : notQuote qc = false := by simp [notQuote]
  intro v hv
  rcases List.suffix_cons_iff.1 hv with rfl | hv1
  · rw [hKB]
    exact litMatch_head_ne (by decide) _ _
  · rcases suffix_append_cases hv1 with hv2 | ⟨s₁, hs₁, hne₁, rfl⟩
    · rcases suffix_append_cases hv2 with hv3 | ⟨a₂, ha₂, hne₂, rfl⟩
      · rcases suffix_append_cases hv3 with hv4 | ⟨k', hk', hnek, rfl⟩
        · have hm2 : v ∈ ([qc] : List Char).tails := (List.mem_tails _ _).2 hv4
          simp [List.tails] at hm2
          rcases hm2 with h | h
          · subst h
            rw [hKB]
            exact litMatch_head_ne (by decide) _ _
          · subst h
            exact litMatch_nil (by simp)
        · have hkq' : ∀ x ∈ k', x ≠ qc := fun x hx =>
            all_notQuote_forall hkq x (hk'.sublist.mem hx)
          rw [show strL "killed by " ++ [qc] ++ strL P ++ [qc]
                = strL "killed by " ++ qc :: (strL P ++ [qc]) from by simp]
          rw [show k' ++ [qc] = k' ++ qc :: ([] : List Char) from by simp]
          rw [litMatch_align hKBq hqcn hkq']
          split
          · exact litMatch_nil (by simp)
          · rfl
      · have : a₂ = [qc] := by
          have hm : a₂ ∈ ([qc] : List Char).tails := (List.mem_tails _ _).2 ha₂
          simp [List.tails] at hm
          rcases hm with h | h
          · exact h
          · exact absurd h hne₂
        subst this
        rw [hKB]
        exact litMatch_head_ne (by decide) _ _
    · have hm : s₁ ∈ (strL "killed by ").tails := (List.mem_tails _ _).2 hs₁
      rw [show strL "killed by " = ['k','i','l','l','e','d',' ','b','y',' '] from rfl] at hm
      simp [List.tails] at hm
      rcases hm with h|h|h|h|h|h|h|h|h|h|h
      · -- the whole "killed by " suffix: the identity block must equal the
        -- killer block, which the hypothesis excludes
        subst h
        rw [show strL "killed by " ++ [qc] ++ strL P ++ [qc]
              = (strL "killed by " ++ [qc]) ++ (strL P ++ [qc]) from by simp]
        rw [show (['k','i','l','l','e','d',' ','b','y',' '] : List Char) ++
              ([qc] ++ (killer ++ [qc]))
              = (strL "killed by " ++ [qc]) ++ (killer ++ qc :: ([] : List Char)) from by
            simp [strL]]
        rw [litMatch_cancel]
        exact P_align_victim hPw (all_notQuote_forall hkq) hkP
      all_goals
        first
          | (subst h; rw [hKB]; exact litMatch_head_ne (by decide) _ _)
          | exact absurd h hne₁

/-- `suicideRE` finds no match on a death line whose killer differs from
the identity. -/
theorem suicide_none_deathLine {P : String} {killer : List Char}
    (hP : P ≠ "") (hPw : (strL P).all isWordChar = true)
    (hkq : killer.all notQuote = true) (hkP : strL P ≠ killer) :
    findSubmatch (suicideRE P) (mkKillLine (strL P) killer) = none := by
  have hL1 : strL "CActor::Kill: " ++ [qc] ++ strL P ++ [qc]
      = 'C' :: (strL "Actor::Kill: " ++ [qc] ++ strL P ++ [qc]) := by simp [strL]
  have hPq : ∀ x ∈ strL P, x ≠ qc := fun x hx =>
    ne_of_class (List.all_eq_true.1 hPw x hx) (by decide)
  apply findSubmatch_none
  intro v hv
  rw [show mkKillLine (strL P) killer = mkKillLine (strL P) killer ++ [] from by simp] at hv
  simp only [suicideRE, seqs]
  rcases killLine_suffix_cases hv with
    ⟨a₁, ha₁, hne₁, rfl⟩ | rfl | ⟨v', hv', hne', rfl⟩ | rfl | ⟨s', hs', hne₅, rfl⟩ |
      rfl | ⟨k', hk', hne₇, rfl⟩ | rfl | hvext
  · have hm : a₁ ∈ (strL "CActor::Kill: ").tails := (List.mem_tails _ _).2 ha₁
    rw [show strL "CActor::Kill: "
          = ['C','A','c','t','o','r',':',':','K','i','l','l',':',' '] from rfl] at hm
    simp [List.tails] at hm
    rcases hm with h|h|h|h|h|h|h|h|h|h|h|h|h|h|h
    · -- position 0: the leading literal matches, but the `killed by '<P>'`
      -- literal fails at every reachable point past it
      subst h
      rw [show (['C','A','c','t','o','r',':',':','K','i','l','l',':',' '] : List Char)
            ++ ([qc] ++ (strL P ++ ([qc] ++ (strL " killed by " ++
              ([qc] ++ (killer ++ ([qc] ++ [])))))))
            = (strL "CActor::Kill: " ++ [qc] ++ strL P ++ [qc]) ++
              (' ' :: (strL "killed by " ++ ([qc] ++ (killer ++ [qc])))) from by
          simp [strL]]
      rw [reMatch_seq, reMatch_lit_of (litMatch_append _ _)]
      rw [reMatch_seq, reMatch_dotStar]
      refine starCls_none (fun u hu => ?_)
      exact reMatch_seqLit_none (suicideTail_none_deathMid hP hPw hkq hkP u hu)
    all_goals
      first
        | (subst h
           exact reMatch_seqLit_none (by rw [hL1]; exact litMatch_head_ne (by decide) _ _))
        | exact absurd h hne₁
  · exact reMatch_seqLit_none (by rw [hL1]; exact litMatch_head_ne (by decide) _ _)
  · exact reMatch_seqLit_none (L1_align_block
      (fun x hx => hPq x (hv'.sublist.mem hx)) (litMatch_P_space hP hPw _ _))
  · exact reMatch_seqLit_none (by rw [hL1]; exact litMatch_head_ne (by decide) _ _)
  · have hm : s' ∈ (strL " killed by ").tails := (List.mem_tails _ _).2 hs'
    rw [show strL " killed by " = [' ','k','i','l','l','e','d',' ','b','y',' '] from rfl] at hm
    simp [List.tails] at hm
    rcases hm with h|h|h|h|h|h|h|h|h|h|h|h <;>
      first
        | (subst h
           exact reMatch_seqLit_none (by rw [hL1]; exact litMatch_head_ne (by decide) _ _))
        | exact absurd h hne₅
  · exact reMatch_seqLit_none (by rw [hL1]; exact litMatch_head_ne (by decide) _ _)
  · exact reMatch_seqLit_none (L1_align_block
      (fun x hx => all_notQuote_forall hkq x (hk'.sublist.mem hx))
      (litMatch_nil (by simp)))
  · exact reMatch_seqLit_none (by rw [hL1]; exact litMatch_head_ne (by decide) _ _)
  · rw [List.eq_nil_of_suffix_nil hvext]
    exact reMatch_seqLit_none (litMatch_nil (by simp))

/-!  ## Processor-level lemmas -/

theorem matchString_of_head {r : RE} {cs : List Char}
    (h : (reMatch r cs [] (fun _ caps => some caps)).isSome) :
    matchString r cs = true := by
  rcases Option.isSome_iff_exists.1 h with ⟨caps, hc⟩
  simp [matchString, findSubmatch_of_head hc]

/-- `suicideRE` matches the canonical suicide line (any newline-free middle
and any tail). -/
theorem suicide_matches (P : String) {mid : List Char} (tail : List Char)
    (hmid : mid.all notNewline = true) :
    matchString (suicideRE P) (mkSuicideLine P mid tail) = true := by
  apply matchString_of_head
  simp only [suicideRE, seqs]
  rw [show mkSuicideLine P mid tail
        = (strL "CActor::Kill: " ++ [qc] ++ strL P ++ [qc]) ++
          (mid ++ ((strL "killed by " ++ [qc] ++ strL P ++ [qc]) ++ tail)) from by
      simp [mkSuicideLine]]
  rw [reMatch_seq, reMatch_lit_of (litMatch_append _ _)]
  rw [reMatch_seq, reMatch_dotStar]
  apply starCls_isSome hmid
  rw [reMatch_seq, reMatch_lit_of (litMatch_append _ _)]
  simp [reMatch, litMatch]

theorem innerPass_len (x : PendingEvent) (l : List PendingEvent) :
    (innerPass x l).2.length = l.length := by
  induction l generalizing x with
  | nil => simp [innerPass]
  | cons y ys ih => simp only [innerPass]; split <;> simp [ih]

theorem exchSort_length (l : List PendingEvent) : (exchSort l).length = l.length := by
  induction l using exchSort.induct with
  | case1 => simp [exchSort]
  | case2 x rest r ih =>
    rw [exchSort]
    simp only [List.length_cons, ih]
    exact congrArg (· + 1) (innerPass_len x rest)

/-- The partition loop of `FlushOldEvents` as two filters. -/
theorem foldl_partition (p : PendingEvent → Prop) [DecidablePred p]
    (l : List PendingEvent) (acc1 acc2 : List PendingEvent) :
    l.foldl (fun (acc : List PendingEvent × List PendingEvent) e =>
        if p e then (acc.1 ++ [e], acc.2) else (acc.1, acc.2 ++ [e])) (acc1, acc2)
      = (acc1 ++ l.filter (fun e => decide (p e)),
         acc2 ++ l.filter (fun e => !decide (p e))) := by
  induction l generalizing acc1 acc2 with
  | nil => simp
  | cons e rest ih =>
    by_cases hp : p e
    · simp [List.filter_cons, hp, ih]
    · simp [List.filter_cons, hp, ih]

theorem concatMap_length {α β : Type} (f : α → List β) (l : List α) :
    (concatMap f l).length = (l.map (fun a => (f a).length)).sum := by
  induction l with
  | nil => rfl
  | cons a rest ih => simp [concatMap, ih]

theorem concatMap_count {α β : Type} [DecidableEq β] (f : α → List β) (l : List α) (b : β) :
    (concatMap f l).count b = (l.map (fun a => (f a).count b)).sum := by
  induction l with
  | nil => rfl
  | cons a rest ih => simp [concatMap, ih]

theorem mem_groupKeys {evs : List PendingEvent} {k : String} :
    k ∈ groupKeys evs ↔ ∃ e ∈ evs, e.playerName = k := by
  induction evs using groupKeys.induct with
  | case1 => simp [groupKeys]
  | case2 e rest ih =>
    rw [groupKeys]
    simp only [List.mem_cons]
    constructor
    · rintro (rfl | hk)
      · exact ⟨e, by simp⟩
      · obtain ⟨x, hx, rfl⟩ := ih.1 hk
        exact ⟨x, Or.inr (List.mem_of_mem_filter hx), rfl⟩
    · rintro ⟨x, hx | hx, rfl⟩
      · subst hx
        exact Or.inl rfl
      · by_cases he : x.playerName = e.playerName
        · exact Or.inl he
        · refine Or.inr (ih.2 ⟨x, ?_, rfl⟩)
          exact List.mem_filter.2 ⟨hx, by simpa using he⟩

theorem groupKeys_nodup (evs : List PendingEvent) : (groupKeys evs).Nodup := by
  induction evs using groupKeys.induct with
  | case1 => simp [groupKeys]
  | case2 e rest ih =>
    rw [groupKeys]
    refine List.nodup_cons.2 ⟨?_, ih⟩
    intro hmem
    obtain ⟨x, hx, hxe⟩ := mem_groupKeys.1 hmem
    have := (List.mem_filter.1 hx).2
    simp [hxe] at this

theorem count_filter_eq {α : Type} [DecidableEq α] (l : List α) (p : α → Bool) (a : α) :
    (l.filter p).count a = if p a then l.count a else 0 := by
  induction l with
  | nil => simp
  | cons x rest ih =>
    by_cases hp : p x
    · by_cases hax : x = a
      · subst hax
        simp [List.filter_cons, hp, List.count_cons, ih]
      · simp [List.filter_cons, hp, List.count_cons, ih, hax,
          fun h : a = x => hax h.symm]
    · by_cases hax : x = a
      · subst hax
        simp [List.filter_cons, hp, List.count_cons, ih]
      · simp [List.filter_cons, hp, List.count_cons, ih, hax]

theorem sum_map_if_unique {keys : List String} {k0 : String} {c : Nat}
    (hnd : keys.Nodup) (hmem : k0 ∈ keys) :
    ((keys.map (fun k => if k0 = k then c else 0)).sum = c) := by
  induction keys with
  | nil => simp at hmem
  | cons k rest ih =>
    rw [List.nodup_cons] at hnd
    rcases List.mem_cons.1 hmem with rfl | hmem'
    · simp only [List.map_cons, List.sum_cons, if_pos rfl]
      have : (rest.map (fun k => if k0 = k then c else 0)).sum = 0 := by
        apply List.sum_eq_zero
        intro x hx
        obtain ⟨y, hy, rfl⟩ := List.mem_map.1 hx
        have : k0 ≠ y := fun h => hnd.1 (h ▸ hy)
        simp [this]
      simp [this]
    · have hk : k0 ≠ k := fun h => hnd.1 (h ▸ hmem')
      simp [hk, ih hnd.2 hmem']

/-- Grouping by first-appearance keys is a permutation of the grouped
list: every event lands in exactly one group. -/
theorem groups_perm (old : List PendingEvent) :
    (concatMap (fun k => old.filter (fun e => e.playerName = k)) (groupKeys old)).Perm
      old := by
  rw [List.perm_iff_count]
  intro a
  rw [concatMap_count]
  by_cases hmem : a ∈ old
  · have hk : a.playerName ∈ groupKeys old := mem_groupKeys.2 ⟨a, hmem, rfl⟩
    have : ∀ k, (old.filter (fun e => decide (e.playerName = k))).count a
        = if a.playerName = k then old.count a else 0 := by
      intro k
      rw [count_filter_eq]
      by_cases h : a.playerName = k <;> simp [h]
    calc ((groupKeys old).map
            (fun k => (old.filter (fun e => decide (e.playerName = k))).count a)).sum
        = ((groupKeys old).map
            (fun k => if a.playerName = k then old.count a else 0)).sum := by
          congr 1
          exact List.map_congr_left (fun k _ => this k)
      _ = old.count a := sum_map_if_unique (groupKeys_nodup old) hk
  · have hz : old.count a = 0 := List.count_eq_zero.2 hmem
    rw [hz]
    apply List.sum_eq_zero
    intro x hx
    obtain ⟨k, hk, rfl⟩ := List.mem_map.1 hx
    rw [count_filter_eq, hz]
    simp

theorem corpseIncap_msgs (p : Processor) (line : String) (cs : List Char) (t : Int) :
    (corpseIncap p line cs t).2 = [] ∨
      ∃ s, (corpseIncap p line cs t).2 = ["You incapacitated: " ++ s] := by
  simp only [corpseIncap]
  repeat' split
  all_goals first
    | exact Or.inl rfl
    | exact Or.inr ⟨_, rfl⟩

theorem killBranch_msgs (p : Processor) (line : String) (t : Int) :
    (killBranch p line t).2 = [] ∨
      (∃ s, (killBranch p line t).2 = ["You killed: " ++ s]) ∨
      ∃ s, (killBranch p line t).2 = ["You incapacitated: " ++ s] := by
  have hci : ∀ (p' : Processor),
      (corpseIncap p' line line.toList t).2 = [] ∨
        ∃ s, (corpseIncap p' line line.toList t).2 = ["You incapacitated: " ++ s] :=
    fun p' => corpseIncap_msgs p' line line.toList t
  simp only [killBranch]
  repeat' split
  all_goals first
    | (rcases hci _ with h | ⟨s, h⟩
       · exact Or.inl h
       · exact Or.inr (Or.inr ⟨s, h⟩))
    | exact Or.inr (Or.inl ⟨_, by rw [String.append_assoc]⟩)
    | exact Or.inr (Or.inl ⟨_, rfl⟩)

theorem classify_msgs (p : Processor) (line : String) (t : Int) :
    (classify p line t).2 = [] ∨
      (∃ s, (classify p line t).2 = ["You killed: " ++ s]) ∨
      ∃ s, (classify p line t).2 = ["You incapacitated: " ++ s] :=
  killBranch_msgs (vehiclePart p line t) line t

theorem corpseIncap_stats (p : Processor) (line : String) (cs : List Char) (t : Int) :
    (corpseIncap p line cs t).1.stats.deaths = p.stats.deaths ∧
    (corpseIncap p line cs t).1.stats.kills = p.stats.kills ∧
    (corpseIncap p line cs t).1.sessionStats.deaths = p.sessionStats.deaths ∧
    (corpseIncap p line cs t).1.sessionStats.kills = p.sessionStats.kills := by
  simp only [corpseIncap, pushEvent, recordIncap]
  repeat' split
  all_goals simp

theorem OK_push {base : List PendingEvent} {t : Int} {p' : Processor} {ev : PendingEvent}
    (hOK : ∀ e ∈ p'.eventAggregator.pendingEvents, e ∈ base ∨ e.timestamp = t)
    (hts : ev.timestamp = t) :
    ∀ e ∈ (pushEvent p' ev).eventAggregator.pendingEvents, e ∈ base ∨ e.timestamp = t := by
  intro e he
  simp only [pushEvent, addEvent, List.mem_append, List.mem_singleton] at he
  rcases he with he | rfl
  · exact hOK e he
  · exact Or.inr hts

theorem corpseIncap_OK {base : List PendingEvent} (p' : Processor) (line : String)
    (cs : List Char) (t : Int)
    (hOK : ∀ e ∈ p'.eventAggregator.pendingEvents, e ∈ base ∨ e.timestamp = t) :
    ∀ e ∈ (corpseIncap p' line cs t).1.eventAggregator.pendingEvents,
      e ∈ base ∨ e.timestamp = t := by
  simp only [corpseIncap]
  repeat' split
  all_goals first
    | exact hOK
    | exact OK_push hOK rfl

theorem killBranch_OK {base : List PendingEvent} (p : Processor) (line : String) (t : Int)
    (hOK : ∀ e ∈ p.eventAggregator.pendingEvents, e ∈ base ∨ e.timestamp = t) :
    ∀ e ∈ (killBranch p line t).1.eventAggregator.pendingEvents,
      e ∈ base ∨ e.timestamp = t := by
  simp only [killBranch]
  repeat' split
  all_goals first
    | exact corpseIncap_OK _ _ _ _ hOK
    | exact corpseIncap_OK _ _ _ _ (OK_push hOK rfl)
    | exact hOK
    | exact OK_push hOK rfl

theorem vehiclePart_OK (p : Processor) (line : String) (t : Int) :
    ∀ e ∈ (vehiclePart p line t).eventAggregator.pendingEvents,
      e ∈ p.eventAggregator.pendingEvents ∨ e.timestamp = t := by
  simp only [vehiclePart]
  repeat' split
  all_goals first
    | exact fun e he => Or.inl he
    | exact OK_push (fun e he => Or.inl he) rfl

theorem classify_pending (p : Processor) (line : String) (t : Int) :
    ∀ e ∈ (classify p line t).1.eventAggregator.pendingEvents,
      e ∈ p.eventAggregator.pendingEvents ∨ e.timestamp = t :=
  killBranch_OK (vehiclePart p line t) line t (vehiclePart_OK p line t)

/-- `FlushOldEvents` in partition form: the retained buffer is the filter
of the still-fresh events, and one message group is rendered per player of
the flushed ones. -/
theorem flushOldEvents_eq (ea : EventAggregator) (w : Int) :
    flushOldEvents ea w =
      (concatMap (fun k =>
          let evs := (ea.pendingEvents.filter
            (fun e => decide (w - e.timestamp > ea.timeWindow))).filter
              (fun e => e.playerName = k)
          let s := createMissionSummary evs
          if s = "" then (exchSort evs).map createIndividualEventMessage else [s])
        (groupKeys (ea.pendingEvents.filter
          (fun e => decide (w - e.timestamp > ea.timeWindow)))),
       { ea with pendingEvents := List.filter (fun e => !decide (w - e.timestamp > ea.timeWindow)) ea.pendingEvents }) := by
  rw [flushOldEvents, foldl_partition (fun e => w - e.timestamp > ea.timeWindow)]
  simp

theorem flushOldEvents_nil (tw : Int) (w : Int) :
    flushOldEvents ⟨[], tw⟩ w = ([], ⟨[], tw⟩) := by
  rw [flushOldEvents_eq]
  simp [groupKeys, concatMap]

theorem processLogLine_empty (p : Processor) (line : String) (t : Int)
    (h : p.playerName = "") :
    processLogLine p line t = ({ p with lastRawLogLine := line }, []) := by
  simp [processLogLine, h]

theorem corpseMatch_contains {cs : List Char} (h : corpseMatch cs = true) :
    containsLst (strL "Corpse") cs = true := by
  rw [corpseMatch] at h
  suffices hgen : ∀ (prev : Option Char) (l : List Char), corpseScan prev l = true →
      containsLst (strL "Corpse") l = true from hgen none cs h
  intro prev l
  induction l generalizing prev with
  | nil => simp [corpseScan]
  | cons c rest ih =>
    intro hsc
    rw [corpseScan, Bool.or_eq_true] at hsc
    rcases hsc with hh | hh
    · rw [corpseHere.eq_def, Bool.and_eq_true, Bool.and_eq_true] at hh
      rw [containsLst, Bool.or_eq_true]
      exact Or.inl hh.1.2
    · rw [containsLst, Bool.or_eq_true]
      exact Or.inr (ih (some c) hh)

/-- The corpse and incapacitation branches are inert when none of their
trigger substrings occurs in the line. -/
theorem corpseIncap_noop (p : Processor) (line : String) (cs : List Char) (t : Int)
    (hc : containsLst (strL "Corpse") cs = false)
    (he : containsLst (strL "Entering control state") cs = false)
    (hi : containsLst (strL "Logged an incap") cs = false) :
    corpseIncap p line cs t = (p, []) := by
  have hcm : corpseMatch cs = false := by
    cases hcm : corpseMatch cs
    · rfl
    · rw [corpseMatch_contains hcm] at hc
      exact Bool.noConfusion hc
  simp [corpseIncap, hcm, he, hi]

theorem killTrigger_prefix (victim killer : List Char) (ext : List Char) :
    containsLst (strL "CActor::Kill:") (mkKillLine victim killer ++ ext) = true := by
  apply containsLst_of_head
  rw [show mkKillLine victim killer ++ ext
        = strL "CActor::Kill:" ++ (strL " " ++ [qc] ++ victim ++ [qc] ++
          strL " killed by " ++ [qc] ++ killer ++ [qc] ++ ext) from by
      have hx : strL "CActor::Kill: " = strL "CActor::Kill:" ++ strL " " := rfl
      simp [mkKillLine, hx]]
  exact isPrefixL_append _ _

theorem killTrigger_prefix_suicide (P : String) (mid tail : List Char) :
    containsLst (strL "CActor::Kill:") (mkSuicideLine P mid tail) = true := by
  apply containsLst_of_head
  rw [show mkSuicideLine P mid tail
        = strL "CActor::Kill:" ++ (strL " " ++ [qc] ++ strL P ++ [qc] ++ mid ++
          strL "killed by " ++ [qc] ++ strL P ++ [qc] ++ tail) from by
      have hx : strL "CActor::Kill: " = strL "CActor::Kill:" ++ strL " " := rfl
      simp [mkSuicideLine, hx]]
  exact isPrefixL_append _ _


theorem vehiclePart_noop {p : Processor} {line : String} {t : Int}
    (hv : containsLst (strL "CVehicle::OnAdvanceDestroyLevel") line.toList = false) :
    vehiclePart p line t = p := by
  have hv' : containsLst (strL "CVehicle::OnAdvanceDestroyLevel") line.data = false := hv
  simp [vehiclePart, hv']

theorem vehiclePart_playerName (p : Processor) (line : String) (t : Int) :
    (vehiclePart p line t).playerName = p.playerName := by
  simp only [vehiclePart]
  repeat' split
  all_goals rfl

theorem vehiclePart_stats (p : Processor) (line : String) (t : Int) :
    (vehiclePart p line t).stats = p.stats ∧
      (vehiclePart p line t).sessionStats = p.sessionStats := by
  simp only [vehiclePart]
  repeat' split
  all_goals exact ⟨rfl, rfl⟩

/-- The suicide branch taken on a canonical suicide line. -/
theorem killBranch_suicide {p1 : Processor} {P : String} {mid tail : List Char} {t : Int}
    (hname : p1.playerName = P) (hmid : mid.all notNewline = true) :
    killBranch p1 (String.mk (mkSuicideLine P mid tail)) t
      = corpseIncap
          (pushEvent (recordDeath p1 "Suicide")
            { etype := .playerDeath, timestamp := t, playerName := p1.playerName,
              cause := "suicide", weapon := "suicide",
              rawLine := String.mk (mkSuicideLine P mid tail) })
          (String.mk (mkSuicideLine P mid tail)) (mkSuicideLine P mid tail) t := by
  simp only [killBranch, toList_mk, killTrigger_prefix_suicide, if_true, hname,
    suicide_matches P tail hmid]

/-- The method-kill branch taken on a canonical method-kill line: the kill
is recorded and the message is emitted immediately (early return, nothing
buffered). -/
theorem killBranch_methodPos {p1 : Processor} {P : String} {victim w : List Char} {t : Int}
    (hname : p1.playerName = P) (hP : P ≠ "") (hPw : (strL P).all isWordChar = true)
    (hvw : victim.all isWordChar = true) (hvne : victim ≠ [])
    (hvP : strL P ≠ victim)
    (hww : w.all isWordChar = true) (hwne : w ≠ []) :
    killBranch p1 (String.mk (mkKillLine victim (strL P) ++ usingExt w)) t
      = (recordKill p1 (String.mk victim),
         ["You killed: " ++ String.mk victim ++ " using " ++ cleanName (String.mk w)]) := by
  have hvq : victim.all notQuote = true := all_mono hvw (fun c => wordChar_notQuote)
  have hwq : w.all notQuote = true := all_mono hww (fun c => wordChar_notQuote)
  have hsui : matchString (suicideRE P) (mkKillLine victim (strL P) ++ usingExt w) = false := by
    simp [matchString, suicide_none_methodLine hP hPw hvq hvP hwq]
  have hdeath := death_none_methodLine hP hPw hvq hvP hwq
  have hmeth := methodRE_find hP hPw hvw hvne hww hwne
  simp only [killBranch, toList_mk, killTrigger_prefix, if_true, hname, hsui, hdeath,
    hmeth, Bool.false_eq_true, if_false]
  simp [capStr, List.find?]

/-- No branch is taken on a method-kill line whose victim name contains a
character outside `[A-Za-z0-9_]` (and that triggers no other grammar): the
processor is unchanged and nothing is emitted. -/
theorem killBranch_methodNeg {p1 : Processor} {P : String} {victim w : List Char} {t : Int}
    (hname : p1.playerName = P) (hP : P ≠ "") (hPw : (strL P).all isWordChar = true)
    (hvq : victim.all notQuote = true)
    (g : List Char) (bad : Char) (tl : List Char) (hsplit : victim = g ++ bad :: tl)
    (hg : g.all isWordChar = true) (hbad : isWordChar bad = false)
    (hww : w.all isWordChar = true)
    (hc : containsLst (strL "Corpse") (mkKillLine victim (strL P) ++ usingExt w) = false)
    (he : containsLst (strL "Entering control state")
      (mkKillLine victim (strL P) ++ usingExt w) = false)
    (hi : containsLst (strL "Logged an incap")
      (mkKillLine victim (strL P) ++ usingExt w) = false) :
    killBranch p1 (String.mk (mkKillLine victim (strL P) ++ usingExt w)) t = (p1, []) := by
  have hwq : w.all notQuote = true := all_mono hww (fun c => wordChar_notQuote)
  have hPq : (strL P).all notQuote = true := all_mono hPw (fun c => wordChar_notQuote)
  have hvP : strL P ≠ victim := by
    intro hcontr
    have hmem : bad ∈ strL P := by rw [hcontr, hsplit]; simp
    have := List.all_eq_true.1 hPw bad hmem
    rw [hbad] at this
    exact Bool.noConfusion this
  have hsui : matchString (suicideRE P) (mkKillLine victim (strL P) ++ usingExt w) = false := by
    simp [matchString, suicide_none_methodLine hP hPw hvq hvP hwq]
  have hdeath := death_none_methodLine hP hPw hvq hvP hwq
  have hmeth : findSubmatch (methodRE P) (mkKillLine victim (strL P) ++ usingExt w) = none := by
    rw [methodRE_eq_killHead]
    exact killHead_none_methodLine hvq g bad tl hsplit hg hbad hPq hwq
  have hkill : findSubmatch (killRE P) (mkKillLine victim (strL P) ++ usingExt w) = none := by
    rw [killRE_eq_killHead]
    exact killHead_none_methodLine hvq g bad tl hsplit hg hbad hPq hwq
  simp only [killBranch, toList_mk, killTrigger_prefix, if_true, hname, hsui, hdeath,
    hmeth, hkill, Bool.false_eq_true, if_false]
  exact corpseIncap_noop p1 _ _ t hc he hi

/-- The death branch taken on a canonical death line: the killer is
recorded in both death records and the fact is buffered, with no immediate
message. -/
theorem killBranch_death {p1 : Processor} {P : String} {killer : List Char} {t : Int}
    (hname : p1.playerName = P) (hP : P ≠ "") (hPw : (strL P).all isWordChar = true)
    (hkq : killer.all notQuote = true) (hkn : killer.all notNewline = true)
    (hkne : killer ≠ []) (hkP : strL P ≠ killer)
    (hc : containsLst (strL "Corpse") (mkKillLine (strL P) killer) = false)
    (he : containsLst (strL "Entering control state") (mkKillLine (strL P) killer) = false)
    (hi : containsLst (strL "Logged an incap") (mkKillLine (strL P) killer) = false) :
    killBranch p1 (String.mk (mkKillLine (strL P) killer)) t
      = (pushEvent (recordDeath p1 (String.mk killer))
          { etype := .playerDeath, timestamp := t, playerName := P,
            cause := String.mk killer, weapon := "",
            rawLine := String.mk (mkKillLine (strL P) killer),
            details := [("damageType", "")] }, []) := by
  have hsui : matchString (suicideRE P) (mkKillLine (strL P) killer) = false := by
    simp [matchString, suicide_none_deathLine hP hPw hkq hkP]
  have hdeath := deathRE_find hP hPw hkq hkn hkne
  rw [show mkKillLine (strL P) killer
        = mkKillLine (strL P) killer ++ [] from by simp] at hsui hdeath ⊢
  simp only [killBranch, toList_mk, killTrigger_prefix, if_true, hname, hsui, hdeath,
    Bool.false_eq_true, if_false]
  rw [corpseIncap_noop _ _ _ t (by simpa using hc) (by simpa using he) (by simpa using hi)]
  simp [capStr, List.find?]

/-!  ## Flush computations on small buffers -/

theorem exchSort_single (e : PendingEvent) : exchSort [e] = [e] := by
  rw [exchSort.eq_def]
  simp [innerPass, exchSort]

theorem exchSort_pair {a b : PendingEvent} (h : ¬ b.timestamp < a.timestamp) :
    exchSort [a, b] = [a, b] := by
  rw [exchSort.eq_def]
  simp only [innerPass, if_neg h]
  rw [exchSort.eq_def]
  simp [innerPass, exchSort]

theorem groupKeys_single (e : PendingEvent) : groupKeys [e] = [e.playerName] := by
  rw [groupKeys]
  simp [groupKeys]

theorem groupKeys_pair_same {a b : PendingEvent} (h : b.playerName = a.playerName) :
    groupKeys [a, b] = [a.playerName] := by
  rw [groupKeys]
  simp [groupKeys, h]

theorem append_ne_empty {a : String} (b : String) (h : a.data ≠ []) : a ++ b ≠ "" := by
  intro hc
  have hd := congrArg String.data hc
  rw [String.data_append] at hd
  simp only [List.append_eq_nil] at hd
  exact h hd.1

theorem data_append_ne {a : String} (b : String) (h : a.data ≠ []) :
    (a ++ b).data ≠ [] := by
  rw [String.data_append]
  intro hc
  rw [List.append_eq_nil] at hc
  exact h hc.1

theorem summary_single_vd {e : PendingEvent} (h : e.etype = .vehicleDestruction) :
    createMissionSummary [e] = "" := by
  rw [createMissionSummary]
  rw [exchSort_single]
  simp [summaryStep, h]

theorem summary_single_pd {e : PendingEvent} (h : e.etype = .playerDeath) :
    createMissionSummary [e] = "" := by
  rw [createMissionSummary]
  rw [exchSort_single]
  simp [summaryStep, h]

/-- Flushing a lone event past the window renders it individually when no
summary pattern applies. -/
theorem flush_single (e : PendingEvent) (t : Int) (ht : t - e.timestamp > 5)
    (hs : createMissionSummary [e] = "") :
    flushOldEvents ⟨[e], 5⟩ t = ([createIndividualEventMessage e], ⟨[], 5⟩) := by
  rw [flushOldEvents_eq]
  have hd : decide (t - e.timestamp > 5) = true := decide_eq_true ht
  simp only [List.filter, hd, Bool.not_true]
  rw [groupKeys_single]
  simp [concatMap, hs, exchSort_single]

/-- Flushing two same-player events past the window renders them as the one
combined summary when it applies. -/
theorem flush_pair_same {a b : PendingEvent} (t : Int)
    (hta : t - a.timestamp > 5) (htb : t - b.timestamp > 5)
    (hp : b.playerName = a.playerName)
    (hs : createMissionSummary [a, b] ≠ "") :
    flushOldEvents ⟨[a, b], 5⟩ t = ([createMissionSummary [a, b]], ⟨[], 5⟩) := by
  rw [flushOldEvents_eq]
  have h1 : decide (t - a.timestamp > 5) = true := decide_eq_true hta
  have h2 : decide (t - b.timestamp > 5) = true := decide_eq_true htb
  simp only [List.filter, h1, h2, Bool.not_true]
  rw [groupKeys_pair_same hp]
  simp [concatMap, hp, hs]

/-- The collision-destruction/crash-death pair correlates into the combined
mission summary. -/
theorem summary_crash_pair (P vn : String) (hP : P ≠ "") (hvn : vn ≠ "") :
    createMissionSummary
        [{ etype := .vehicleDestruction, timestamp := 100, playerName := P,
           vehicleName := vn, cause := "Collision" },
         { etype := .playerDeath, timestamp := 102, playerName := P,
           weapon := "Crash" }]
      = "Mission Event: " ++ P ++ " crashed their " ++ cleanName vn ++ " and died" := by
  rw [createMissionSummary]
  rw [exchSort_pair (by simp)]
  have hcol : lowerStr "Collision" = "collision" := by decide
  have hcr : lowerStr "Crash" = "crash" := by decide
  simp [summaryStep, hcol, hcr, hP, hvn]

/-- Flushing the collision/crash pair emits exactly the combined summary and
clears the buffer. -/
theorem flush_crash_pair (P vn : String) (t : Int) (hP : P ≠ "") (hvn : vn ≠ "")
    (ht : t ≥ 108) :
    flushOldEvents
        ⟨[{ etype := .vehicleDestruction, timestamp := 100, playerName := P,
            vehicleName := vn, cause := "Collision" },
          { etype := .playerDeath, timestamp := 102, playerName := P,
            weapon := "Crash" }], 5⟩ t
      = (["Mission Event: " ++ P ++ " crashed their " ++ cleanName vn ++ " and died"],
         ⟨[], 5⟩) := by
  have hsum := summary_crash_pair P vn hP hvn
  have hne : createMissionSummary
      [{ etype := .vehicleDestruction, timestamp := 100, playerName := P,
         vehicleName := vn, cause := "Collision" },
       { etype := .playerDeath, timestamp := 102, playerName := P,
         weapon := "Crash" }] ≠ "" := by
    rw [hsum]
    apply append_ne_empty
    apply data_append_ne
    apply data_append_ne
    apply data_append_ne
    decide
  rw [@flush_pair_same
      { etype := .vehicleDestruction, timestamp := 100, playerName := P,
        vehicleName := vn, cause := "Collision" }
      { etype := .playerDeath, timestamp := 102, playerName := P,
        weapon := "Crash" } t (by simp; omega) (by simp; omega) rfl hne, hsum]

/-- `ProcessLogLine` with a resolved identity, written as flush followed by
classification. -/
theorem processLogLine_eq (p : Processor) (line : String) (t : Int)
    (h : p.playerName ≠ "") :
    processLogLine p line t =
      ((killBranch (vehiclePart
          { p with lastRawLogLine := line,
                   eventAggregator := (flushOldEvents p.eventAggregator t).2 } line t) line t).1,
       (flushOldEvents p.eventAggregator t).1 ++
         (killBranch (vehiclePart
           { p with lastRawLogLine := line,
                    eventAggregator := (flushOldEvents p.eventAggregator t).2 } line t) line t).2) := by
  simp [processLogLine, classify, h]

/-!  ## Further composites used by the claim theorems -/

/-- `ProcessLogLine` over an empty buffer: the flush contributes nothing. -/
theorem processLogLine_nilAgg (p : Processor) (line : String) (t : Int)
    (h : p.playerName ≠ "") (hbuf : p.eventAggregator = ⟨[], 5⟩) :
    processLogLine p line t =
      killBranch (vehiclePart
        { p with lastRawLogLine := line, eventAggregator := ⟨[], 5⟩ } line t) line t := by
  rw [processLogLine_eq p line t h, hbuf, flushOldEvents_nil]
  simp

/-- The suicide branch's effect on the four kill/death records. -/
theorem killBranch_suicide_stats {p1 : Processor} {P : String} {mid tail : List Char}
    {t : Int} (hname : p1.playerName = P) (hmid : mid.all notNewline = true) :
    (killBranch p1 (String.mk (mkSuicideLine P mid tail)) t).1.stats.deaths
        = bump p1.stats.deaths "Suicide" ∧
    (killBranch p1 (String.mk (mkSuicideLine P mid tail)) t).1.sessionStats.deaths
        = bump p1.sessionStats.deaths "Suicide" ∧
    (killBranch p1 (String.mk (mkSuicideLine P mid tail)) t).1.stats.kills
        = p1.stats.kills ∧
    (killBranch p1 (String.mk (mkSuicideLine P mid tail)) t).1.sessionStats.kills
        = p1.sessionStats.kills := by
  rw [killBranch_suicide hname hmid]
  exact ⟨(corpseIncap_stats _ _ _ _).1, (corpseIncap_stats _ _ _ _).2.2.1,
    (corpseIncap_stats _ _ _ _).2.1, (corpseIncap_stats _ _ _ _).2.2.2⟩

/-- `methodRE` finds no match on a plain kill line (no `using` clause): the
mandatory `using '…'` tail has nothing to consume. -/
theorem methodRE_none_plainLine {P : String} {victim : List Char}
    (hP : P ≠ "") (hPw : (strL P).all isWordChar = true)
    (hvw : victim.all isWordChar = true) (hvne : victim ≠ []) :
    findSubmatch (methodRE P) (mkKillLine victim (strL P)) = none := by
  have hA : strL "CActor::Kill: " ++ [qc] = 'C' :: (strL "Actor::Kill: " ++ [qc]) := by
    simp [strL]
  have hAq : (strL "CActor::Kill: ").all notQuote = true := by decide
  have hqcn : notQuote qc = false := by simp [notQuote]
  have hPq : (strL P).all notQuote = true := all_mono hPw (fun c => wordChar_notQuote)
  have hvq : victim.all notQuote = true := all_mono hvw (fun c => wordChar_notQuote)
  have hKB : strL "killed by " ++ [qc] ++ strL P ++ [qc]
      = 'k' :: (strL "illed by " ++ [qc] ++ strL P ++ [qc]) := by simp [strL]
  have hKBq : (strL "killed by ").all notQuote = true := by decide
  rw [methodRE_eq_killHead]
  -- the rest-pattern fails on the whole post-victim tail region
  have hcont : ∀ (caps : Caps) (k : List Char → Caps → Option Caps),
      reMatch (seqs
        [ .dotStar
        , .lit (strL "killed by " ++ [qc] ++ strL P ++ [qc])
        , .dotStar, .lit (strL "using " ++ [qc]), .grp 2 notQuote, .lit [qc] ])
        (strL " killed by " ++ ([qc] ++ (strL P ++ [qc]))) caps k = none := by
    intro caps k
    simp only [seqs]
    rw [reMatch_seq, reMatch_dotStar]
    apply starCls_none
    intro v hv
    rcases suffix_append_cases hv with hv1 | ⟨s', hs', hne₁, rfl⟩
    · rcases suffix_append_cases hv1 with hv2 | ⟨a₂, ha₂, hne₂, rfl⟩
      · -- v a suffix of `P'`
        rcases suffix_append_cases hv2 with hv3 | ⟨p', hp', hne₃, rfl⟩
        · -- v a suffix of the closing quote
          have hm : v ∈ ([qc] : List Char).tails := (List.mem_tails _ _).2 hv3
          simp [List.tails] at hm
          rcases hm with h | h
          · subst h
            exact reMatch_seqLit_none (by rw [hKB]; exact litMatch_head_ne (by decide) _ _)
          · subst h
            exact reMatch_seqLit_none (litMatch_nil (by simp))
        · -- v = p' ++ [qc], p' a nonempty suffix of the identity
          have hlit : litMatch (strL "killed by " ++ [qc] ++ strL P ++ [qc])
              (p' ++ [qc]) = none := by
            rw [show strL "killed by " ++ [qc] ++ strL P ++ [qc]
                  = strL "killed by " ++ qc :: (strL P ++ [qc]) from by simp,
                show p' ++ [qc] = p' ++ qc :: [] from by simp,
                litMatch_align hKBq hqcn
                  (fun x hx => all_notQuote_forall hPq x (hp'.sublist.mem hx))]
            split
            · exact litMatch_nil (by simp)
            · rfl
          exact reMatch_seqLit_none hlit
      · -- v = a₂ ++ …, a₂ = [qc]
        have : a₂ = [qc] := by
          have hm : a₂ ∈ ([qc] : List Char).tails := (List.mem_tails _ _).2 ha₂
          simp [List.tails] at hm
          rcases hm with h | h
          · exact h
          · exact absurd h hne₂
        subst this
        exact reMatch_seqLit_none (by rw [hKB]; exact litMatch_head_ne (by decide) _ _)
    · -- v = s' ++ …, s' a nonempty suffix of " killed by "
      have hm : s' ∈ (strL " killed by ").tails := (List.mem_tails _ _).2 hs'
      rw [show strL " killed by "
            = [' ','k','i','l','l','e','d',' ','b','y',' '] from rfl] at hm
      simp [List.tails] at hm
      rcases hm with h|h|h|h|h|h|h|h|h|h|h|h
      · -- s' = " killed by " itself
        subst h
        exact reMatch_seqLit_none (by rw [hKB]; exact litMatch_head_ne (by decide) _ _)
      · -- s' = "killed by ": the literal matches fully, but leaves nothing
        -- for the mandatory `using '…'` tail
        subst h
        rw [show (['k','i','l','l','e','d',' ','b','y',' '] : List Char)
              ++ ([qc] ++ (strL P ++ [qc]))
              = (strL "killed by " ++ [qc] ++ strL P ++ [qc]) ++ [] from by
            simp [strL]]
        rw [reMatch_seq, reMatch_lit_of (litMatch_append _ _)]
        exact optTail_nil_none (by simp [strL]) _ _
      all_goals
        first
          | (subst h
             exact reMatch_seqLit_none (by rw [hKB]; exact litMatch_head_ne (by decide) _ _))
          | exact absurd h hne₁
  apply findSubmatch_none
  intro v hv
  have hv' : v <:+ mkKillLine victim (strL P) ++ [] := by simpa using hv
  rcases killLine_suffix_cases hv' with
    ⟨a₁, ha₁, hne₁, rfl⟩ | rfl | ⟨v', hv'', hne', rfl⟩ | rfl | ⟨s', hs', hne₅, rfl⟩ |
      rfl | ⟨k', hk', hne₇, rfl⟩ | rfl | hvext
  · -- inside the leading literal
    have hm : a₁ ∈ (strL "CActor::Kill: ").tails := (List.mem_tails _ _).2 ha₁
    rw [show strL "CActor::Kill: "
          = ['C','A','c','t','o','r',':',':','K','i','l','l',':',' '] from rfl] at hm
    simp [List.tails] at hm
    rcases hm with h|h|h|h|h|h|h|h|h|h|h|h|h|h|h
    · -- position 0: the victim capture reaches the boundary, where the
      -- rest-pattern fails on the tail region
      subst h
      rw [show (['C','A','c','t','o','r',':',':','K','i','l','l',':',' '] : List Char)
            ++ ([qc] ++ (victim ++ ([qc] ++ (strL " killed by " ++
              ([qc] ++ (strL P ++ ([qc] ++ [])))))))
            = (strL "CActor::Kill: " ++ [qc]) ++ (victim ++ ([qc] ++ (strL " killed by " ++
              ([qc] ++ (strL P ++ [qc]))))) from by simp [strL]]
      rw [killHead, reMatch_seq, reMatch_lit_of (litMatch_append _ _)]
      cases victim with
      | nil => exact absurd rfl hvne
      | cons vh vt =>
        have hvh : isWordChar vh = true := by
          have := List.all_eq_true.1 hvw vh (by simp)
          simpa using this
        have hvt : vt.all isWordChar = true := by
          rw [List.all_cons, Bool.and_eq_true] at hvw
          exact hvw.2
        rw [show (vh :: vt) ++ ([qc] ++ (strL " killed by " ++ ([qc] ++ (strL P ++ [qc]))))
              = vh :: (vt ++ qc :: (strL " killed by " ++ ([qc] ++ (strL P ++ [qc]))))
            from by simp]
        rw [reMatch_seq, reMatch_grp_cons hvh]
        refine manyGreedy_none hvt (by decide) [vh] ?_
        intro pre suf hps
        cases suf with
        | nil =>
          rw [List.nil_append, reMatch_seq,
            reMatch_lit_of (show litMatch [qc] (qc :: (strL " killed by " ++
              ([qc] ++ (strL P ++ [qc])))) = some (strL " killed by " ++
              ([qc] ++ (strL P ++ [qc]))) from by simp [litMatch])]
          exact hcont _ _
        | cons sc st =>
          have hsc : isWordChar sc = true := by
            have hmem : sc ∈ vt := by
              have : sc ∈ pre ++ sc :: st := by simp
              rw [hps] at this
              exact this
            have := List.all_eq_true.1 hvt sc hmem
            simpa using this
          have hscq : sc ≠ qc := ne_of_class hsc (by decide)
          rw [List.cons_append, reMatch_seq]
          exact reMatch_lit_none (litMatch_head_ne (fun h => hscq h.symm) _ _) _ _
    all_goals
      first
        | (subst h
           rw [killHead]
           exact reMatch_seqLit_none (by rw [hA]; exact litMatch_head_ne (by decide) _ _))
        | exact absurd h hne₁
  · rw [killHead]
    exact reMatch_seqLit_none (by rw [hA]; exact litMatch_head_ne (by decide) _ _)
  · -- inside the victim block
    rw [killHead, reMatch_seqLit_cases,
      litMatch_close_eq hAq hqcn
        (fun x hx => all_notQuote_forall hvq x (hv''.sublist.mem hx)) _]
    by_cases he : strL "CActor::Kill: " = v'
    · simp only [if_pos he]
      rw [show strL " killed by " ++ ([qc] ++ (strL P ++ ([qc] ++ ([] : List Char))))
            = ' ' :: (strL "killed by " ++ ([qc] ++ (strL P ++ ([qc] ++ [])))) from by
          simp [strL]]
      rw [reMatch_seq]
      exact reMatch_grp_neg (by decide) _ _ _
    · simp [if_neg he]
  · rw [killHead]
    exact reMatch_seqLit_none (by rw [hA]; exact litMatch_head_ne (by decide) _ _)
  · -- inside " killed by "
    have hm : s' ∈ (strL " killed by ").tails := (List.mem_tails _ _).2 hs'
    rw [show strL " killed by " = [' ','k','i','l','l','e','d',' ','b','y',' '] from rfl] at hm
    simp [List.tails] at hm
    rcases hm with h|h|h|h|h|h|h|h|h|h|h|h <;>
      first
        | (subst h
           rw [killHead]
           exact reMatch_seqLit_none (by rw [hA]; exact litMatch_head_ne (by decide) _ _))
        | exact absurd h hne₅
  · rw [killHead]
    exact reMatch_seqLit_none (by rw [hA]; exact litMatch_head_ne (by decide) _ _)
  · -- inside the killer block (the identity)
    rw [killHead, reMatch_seqLit_cases,
      litMatch_close_eq hAq hqcn
        (fun x hx => all_notQuote_forall hPq x (hk'.sublist.mem hx)) _]
    by_cases he : strL "CActor::Kill: " = k'
    · simp only [if_pos he]
      rw [reMatch_seq]
      exact reMatch_grp_nil
    · simp [if_neg he]
  · rw [killHead]
    exact reMatch_seqLit_none (by rw [hA]; exact litMatch_head_ne (by decide) _ _)
  · -- the empty extension
    rw [List.eq_nil_of_suffix_nil hvext, killHead]
    exact reMatch_seqLit_none (litMatch_nil (by simp))

/-- The plain kill branch taken on a canonical kill line without a method
clause: the kill is recorded and the message emitted immediately. -/
theorem killBranch_killPos {p1 : Processor} {P : String} {victim : List Char} {t : Int}
    (hname : p1.playerName = P) (hP : P ≠ "") (hPw : (strL P).all isWordChar = true)
    (hvw : victim.all isWordChar = true) (hvne : victim ≠ []) (hvP : strL P ≠ victim) :
    killBranch p1 (String.mk (mkKillLine victim (strL P))) t
      = (recordKill p1 (String.mk victim), ["You killed: " ++ String.mk victim]) := by
  have hvq : victim.all notQuote = true := all_mono hvw (fun c => wordChar_notQuote)
  have htrig : containsLst (strL "CActor::Kill:") (mkKillLine victim (strL P)) = true := by
    have := killTrigger_prefix victim (strL P) []
    simpa using this
  have hsui : matchString (suicideRE P) (mkKillLine victim (strL P)) = false := by
    simp [matchString, suicide_none_plainLine hP hPw hvq hvP]
  have hdeath := death_none_plainLine hP hPw hvq hvP
  have hmeth := methodRE_none_plainLine hP hPw hvw hvne
  have hkill := killRE_find hP hPw hvw hvne
  simp only [killBranch, toList_mk, htrig, if_true, hname, hsui, hdeath, hmeth, hkill,
    Bool.false_eq_true, if_false]
  simp [capStr, List.find?]

/-!  ## The claims -/

/-- C1: with a resolved identity and the aggregator holding a
vehicle-destruction fact (cause "Collision", t=100) and a death fact for the
same identity (weapon "Crash", t=102), processing any line at time ≥ 108
flushes both facts as exactly one combined message "Mission Event: <player>
crashed their <cleaned vehicle> and died" (the remaining output of the call
comes from classifying the new line and is never an individual vehicle or
death message). -/
theorem crash_pair_combined_summary (p : Processor) (line : String) (t : Int)
    (P vn : String)
    (hname : p.playerName = P) (hP : P ≠ "") (hvn : vn ≠ "")
    (hbuf : p.eventAggregator
      = ⟨[{ etype := .vehicleDestruction, timestamp := 100, playerName := P,
            vehicleName := vn, cause := "Collision" },
          { etype := .playerDeath, timestamp := 102, playerName := P,
            weapon := "Crash" }], 5⟩)
    (ht : t ≥ 108) :
    processLogLine p line t
      = ((classify { p with lastRawLogLine := line, eventAggregator := ⟨[], 5⟩ } line t).1,
         ("Mission Event: " ++ P ++ " crashed their " ++ cleanName vn ++ " and died")
           :: (classify { p with lastRawLogLine := line, eventAggregator := ⟨[], 5⟩ } line t).2) ∧
    ((classify { p with lastRawLogLine := line, eventAggregator := ⟨[], 5⟩ } line t).2 = [] ∨
     (∃ s, (classify { p with lastRawLogLine := line, eventAggregator := ⟨[], 5⟩ } line t).2
        = ["You killed: " ++ s]) ∨
     ∃ s, (classify { p with lastRawLogLine := line, eventAggregator := ⟨[], 5⟩ } line t).2
        = ["You incapacitated: " ++ s]) := by
  have hP' : p.playerName ≠ "" := by rw [hname]; exact hP
  rw [processLogLine_eq p line t hP', hbuf, flush_crash_pair P vn t hP hvn ht]
  exact ⟨rfl, classify_msgs _ _ _⟩

/-- C1 witness: the combined summary at the concrete crash pair. -/
theorem crash_pair_combined_summary_witness :
    ((⟨"Hero", Stats.new, Stats.new, "",
        ⟨[{ etype := .vehicleDestruction, timestamp := 100, playerName := "Hero",
            vehicleName := "MISC_Prospector", cause := "Collision" },
          { etype := .playerDeath, timestamp := 102, playerName := "Hero",
            weapon := "Crash" }], 5⟩⟩ : Processor).playerName = "Hero") ∧
    ("Hero" ≠ "") ∧ ("MISC_Prospector" ≠ "") ∧ ((108 : Int) ≥ 108) ∧
    (processLogLine
        ⟨"Hero", Stats.new, Stats.new, "",
          ⟨[{ etype := .vehicleDestruction, timestamp := 100, playerName := "Hero",
              vehicleName := "MISC_Prospector", cause := "Collision" },
            { etype := .playerDeath, timestamp := 102, playerName := "Hero",
              weapon := "Crash" }], 5⟩⟩ "x" 108
      = ((classify { (⟨"Hero", Stats.new, Stats.new, "",
            ⟨[{ etype := .vehicleDestruction, timestamp := 100, playerName := "Hero",
                vehicleName := "MISC_Prospector", cause := "Collision" },
              { etype := .playerDeath, timestamp := 102, playerName := "Hero",
                weapon := "Crash" }], 5⟩⟩ : Processor) with
              lastRawLogLine := "x", eventAggregator := ⟨[], 5⟩ } "x" 108).1,
         ("Mission Event: " ++ "Hero" ++ " crashed their " ++ cleanName "MISC_Prospector"
             ++ " and died")
           :: (classify { (⟨"Hero", Stats.new, Stats.new, "",
            ⟨[{ etype := .vehicleDestruction, timestamp := 100, playerName := "Hero",
                vehicleName := "MISC_Prospector", cause := "Collision" },
              { etype := .playerDeath, timestamp := 102, playerName := "Hero",
                weapon := "Crash" }], 5⟩⟩ : Processor) with
              lastRawLogLine := "x", eventAggregator := ⟨[], 5⟩ } "x" 108).2)) :=
  ⟨rfl, by decide, by decide, by decide,
    (crash_pair_combined_summary _ "x" 108 "Hero" "MISC_Prospector"
      rfl (by decide) (by decide) rfl (by decide)).1⟩

/-- C2 (amended): a flushed lone vehicle-destruction fact renders as
"Vehicle <cleaned name> was destroyed by <cause>" — no status word from the
destroy level, and no weapon clause or "(collision)" marker. -/
theorem vehicle_individual_message (P vn cause w dl : String) (t : Int)
    (hvn : vn ≠ "") (ht : t - 100 > 5) :
    flushOldEvents
        ⟨[{ etype := .vehicleDestruction, timestamp := 100, playerName := P,
            vehicleName := vn, cause := cause, weapon := w,
            details := [("destroyLevel", dl)] }], 5⟩ t
      = (["Vehicle " ++ cleanName vn ++ " was destroyed by " ++ cause], ⟨[], 5⟩) := by
  rw [flush_single _ t (by simpa using ht) (summary_single_vd rfl)]
  simp [createIndividualEventMessage, hvn]

/-- C2 witness: the rendering at level 2, cause "Bob", weapon "Collision". -/
theorem vehicle_individual_message_witness :
    ("Aurora" ≠ "") ∧ ((108 : Int) - 100 > 5) ∧
    flushOldEvents
        ⟨[{ etype := .vehicleDestruction, timestamp := 100, playerName := "Hero",
            vehicleName := "Aurora", cause := "Bob", weapon := "Collision",
            details := [("destroyLevel", "2")] }], 5⟩ 108
      = (["Vehicle " ++ cleanName "Aurora" ++ " was destroyed by " ++ "Bob"], ⟨[], 5⟩) :=
  ⟨by decide, by decide,
    vehicle_individual_message "Hero" "Aurora" "Bob" "Collision" "2" 108 (by decide) (by decide)⟩

/-- C2 counterexample: the level-2 "Bob"/"Collision" fact flushes as
"Vehicle Aurora was destroyed by Bob", not the claimed
"Vehicle Aurora was destroyed by Bob (collision)". -/
theorem vehicle_message_counterexample :
    flushOldEvents
        ⟨[{ etype := .vehicleDestruction, timestamp := 100, playerName := "Hero",
            vehicleName := "Aurora", cause := "Bob", weapon := "Collision",
            details := [("destroyLevel", "2")] }], 5⟩ 108
      = (["Vehicle Aurora was destroyed by Bob"], ⟨[], 5⟩) ∧
    "Vehicle Aurora was destroyed by Bob" ≠ "Vehicle Aurora was destroyed by Bob (collision)" := by
  constructor
  · rw [flush_single _ 108 (by decide) (summary_single_vd rfl)]
    decide
  · decide

/-- C3: one flush pass retains exactly the still-fresh events (in order,
unchanged), renders the old ones in one group per player, and the groups
together are a permutation of the old events — each flushed event is
rendered in exactly one group and leaves the buffer. -/
theorem flush_partition_once (ea : EventAggregator) (w : Int) :
    (flushOldEvents ea w).2.pendingEvents
        = ea.pendingEvents.filter (fun e => !decide (w - e.timestamp > ea.timeWindow)) ∧
    (flushOldEvents ea w).1
        = concatMap (fun k =>
            let evs := (ea.pendingEvents.filter
              (fun e => decide (w - e.timestamp > ea.timeWindow))).filter
                (fun e => e.playerName = k)
            let s := createMissionSummary evs
            if s = "" then (exchSort evs).map createIndividualEventMessage else [s])
          (groupKeys (ea.pendingEvents.filter
            (fun e => decide (w - e.timestamp > ea.timeWindow)))) ∧
    (concatMap (fun k => (ea.pendingEvents.filter
          (fun e => decide (w - e.timestamp > ea.timeWindow))).filter
            (fun e => e.playerName = k))
        (groupKeys (ea.pendingEvents.filter
          (fun e => decide (w - e.timestamp > ea.timeWindow))))).Perm
      (ea.pendingEvents.filter (fun e => decide (w - e.timestamp > ea.timeWindow))) := by
  refine ⟨?_, ?_, groups_perm _⟩
  · rw [flushOldEvents_eq]
  · rw [flushOldEvents_eq]

/-- C4: before the identity is resolved, `ProcessLogLine` only records the
raw line — no message, no stats change, no aggregator change. -/
theorem unresolved_identity_inert (p : Processor) (line : String) (t : Int)
    (h : p.playerName = "") :
    (processLogLine p line t).2 = [] ∧
    (processLogLine p line t).1.stats = p.stats ∧
    (processLogLine p line t).1.sessionStats = p.sessionStats ∧
    (processLogLine p line t).1.eventAggregator = p.eventAggregator ∧
    (processLogLine p line t).1.playerName = p.playerName := by
  rw [processLogLine_empty p line t h]
  exact ⟨rfl, rfl, rfl, rfl, rfl⟩

/-- C4 witness: a kill line fed to an unresolved processor does nothing. -/
theorem unresolved_identity_inert_witness :
    ((⟨"", Stats.new, Stats.new, "", ⟨[], 5⟩⟩ : Processor).playerName = "") ∧
    ((processLogLine ⟨"", Stats.new, Stats.new, "", ⟨[], 5⟩⟩ "CActor::Kill: x" 3).2 = [] ∧
     (processLogLine ⟨"", Stats.new, Stats.new, "", ⟨[], 5⟩⟩ "CActor::Kill: x" 3).1.stats
        = (⟨"", Stats.new, Stats.new, "", ⟨[], 5⟩⟩ : Processor).stats ∧
     (processLogLine ⟨"", Stats.new, Stats.new, "", ⟨[], 5⟩⟩ "CActor::Kill: x" 3).1.sessionStats
        = (⟨"", Stats.new, Stats.new, "", ⟨[], 5⟩⟩ : Processor).sessionStats ∧
     (processLogLine ⟨"", Stats.new, Stats.new, "", ⟨[], 5⟩⟩ "CActor::Kill: x" 3).1.eventAggregator
        = (⟨"", Stats.new, Stats.new, "", ⟨[], 5⟩⟩ : Processor).eventAggregator ∧
     (processLogLine ⟨"", Stats.new, Stats.new, "", ⟨[], 5⟩⟩ "CActor::Kill: x" 3).1.playerName
        = (⟨"", Stats.new, Stats.new, "", ⟨[], 5⟩⟩ : Processor).playerName) :=
  ⟨rfl, unresolved_identity_inert _ _ _ rfl⟩

/-- C5: once the identity is set, `DetectPlayerName` is a no-op on every
further line, identity-bearing or not. -/
theorem identity_resolution_idempotent (load : String → Stats) (p : Processor)
    (line : String) (h : p.playerName ≠ "") :
    detectPlayerName load p line = (p, []) := by
  simp [detectPlayerName, h]

/-- C5 witness: a `nickname="Other"` line does not change the identity. -/
theorem identity_resolution_idempotent_witness :
    ((⟨"Hero", Stats.new, Stats.new, "", ⟨[], 5⟩⟩ : Processor).playerName ≠ "") ∧
    detectPlayerName (fun _ => Stats.new) ⟨"Hero", Stats.new, Stats.new, "", ⟨[], 5⟩⟩
        "nickname=\"Other\" joined"
      = (⟨"Hero", Stats.new, Stats.new, "", ⟨[], 5⟩⟩, []) :=
  ⟨by decide, identity_resolution_idempotent _ _ _ (by decide)⟩

/-- C6 (amended): every classified kill — with or without a method clause —
is rendered and emitted at classification time ("You killed: <victim> using
<method>" or "You killed: <victim>") and is never handed to the aggregator:
the kill branches return early and the pending buffer is left empty. -/
theorem kill_emitted_immediately (p q : Processor) (P : String)
    (victim w : List Char) (t : Int)
    (hname : p.playerName = P) (hqname : q.playerName = P) (hP : P ≠ "")
    (hPw : (strL P).all isWordChar = true)
    (hvw : victim.all isWordChar = true) (hvne : victim ≠ []) (hvP : strL P ≠ victim)
    (hww : w.all isWordChar = true) (hwne : w ≠ [])
    (hbufp : p.eventAggregator = ⟨[], 5⟩) (hbufq : q.eventAggregator = ⟨[], 5⟩)
    (hvehM : containsLst (strL "CVehicle::OnAdvanceDestroyLevel")
        (mkKillLine victim (strL P) ++ usingExt w) = false)
    (hvehK : containsLst (strL "CVehicle::OnAdvanceDestroyLevel")
        (mkKillLine victim (strL P)) = false) :
    processLogLine p (String.mk (mkKillLine victim (strL P) ++ usingExt w)) t
      = (recordKill
          { p with lastRawLogLine := String.mk (mkKillLine victim (strL P) ++ usingExt w),
                   eventAggregator := ⟨[], 5⟩ }
          (String.mk victim),
         ["You killed: " ++ String.mk victim ++ " using " ++ cleanName (String.mk w)]) ∧
    (processLogLine p (String.mk (mkKillLine victim (strL P) ++ usingExt w))
        t).1.eventAggregator.pendingEvents = [] ∧
    processLogLine q (String.mk (mkKillLine victim (strL P))) t
      = (recordKill
          { q with lastRawLogLine := String.mk (mkKillLine victim (strL P)),
                   eventAggregator := ⟨[], 5⟩ }
          (String.mk victim),
         ["You killed: " ++ String.mk victim]) ∧
    (processLogLine q (String.mk (mkKillLine victim (strL P)))
        t).1.eventAggregator.pendingEvents = [] := by
  have hP'p : p.playerName ≠ "" := by rw [hname]; exact hP
  have hP'q : q.playerName ≠ "" := by rw [hqname]; exact hP
  have hM : processLogLine p (String.mk (mkKillLine victim (strL P) ++ usingExt w)) t
      = (recordKill
          { p with lastRawLogLine := String.mk (mkKillLine victim (strL P) ++ usingExt w),
                   eventAggregator := ⟨[], 5⟩ }
          (String.mk victim),
         ["You killed: " ++ String.mk victim ++ " using " ++ cleanName (String.mk w)]) := by
    rw [processLogLine_nilAgg p _ t hP'p hbufp]
    rw [vehiclePart_noop (by rw [toList_mk]; exact hvehM)]
    have hname1 : ({ p with
        lastRawLogLine := String.mk (mkKillLine victim (strL P) ++ usingExt w),
        eventAggregator := (⟨[], 5⟩ : EventAggregator) } : Processor).playerName = P := hname
    rw [killBranch_methodPos hname1 hP hPw hvw hvne hvP hww hwne]
  have hK : processLogLine q (String.mk (mkKillLine victim (strL P))) t
      = (recordKill
          { q with lastRawLogLine := String.mk (mkKillLine victim (strL P)),
                   eventAggregator := ⟨[], 5⟩ }
          (String.mk victim),
         ["You killed: " ++ String.mk victim]) := by
    rw [processLogLine_nilAgg q _ t hP'q hbufq]
    rw [vehiclePart_noop (by rw [toList_mk]; exact hvehK)]
    have hname2 : ({ q with
        lastRawLogLine := String.mk (mkKillLine victim (strL P)),
        eventAggregator := (⟨[], 5⟩ : EventAggregator) } : Processor).playerName = P := hqname
    rw [killBranch_killPos hname2 hP hPw hvw hvne hvP]
  refine ⟨hM, ?_, hK, ?_⟩
  · rw [hM]
    exact rfl
  · rw [hK]
    exact rfl

/-- C6 witness: the concrete Victim/Rifle method kill and the plain Victim kill. -/
theorem kill_emitted_immediately_witness :
    (processLogLine ⟨"Hero", Stats.new, Stats.new, "", ⟨[], 5⟩⟩
        (String.mk (mkKillLine (strL "Victim") (strL "Hero") ++ usingExt (strL "Rifle"))) 50
      = (recordKill
          { (⟨"Hero", Stats.new, Stats.new, "", ⟨[], 5⟩⟩ : Processor) with
            lastRawLogLine :=
              String.mk (mkKillLine (strL "Victim") (strL "Hero") ++ usingExt (strL "Rifle")),
            eventAggregator := ⟨[], 5⟩ }
          (String.mk (strL "Victim")),
         ["You killed: " ++ String.mk (strL "Victim") ++ " using "
            ++ cleanName (String.mk (strL "Rifle"))])) ∧
    (processLogLine ⟨"Hero", Stats.new, Stats.new, "", ⟨[], 5⟩⟩
        (String.mk (mkKillLine (strL "Victim") (strL "Hero") ++ usingExt (strL "Rifle")))
        50).1.eventAggregator.pendingEvents = [] ∧
    (processLogLine ⟨"Hero", Stats.new, Stats.new, "", ⟨[], 5⟩⟩
        (String.mk (mkKillLine (strL "Victim") (strL "Hero"))) 50
      = (recordKill
          { (⟨"Hero", Stats.new, Stats.new, "", ⟨[], 5⟩⟩ : Processor) with
            lastRawLogLine := String.mk (mkKillLine (strL "Victim") (strL "Hero")),
            eventAggregator := ⟨[], 5⟩ }
          (String.mk (strL "Victim")),
         ["You killed: " ++ String.mk (strL "Victim")])) ∧
    (processLogLine ⟨"Hero", Stats.new, Stats.new, "", ⟨[], 5⟩⟩
        (String.mk (mkKillLine (strL "Victim") (strL "Hero")))
        50).1.eventAggregator.pendingEvents = [] :=
  kill_emitted_immediately ⟨"Hero", Stats.new, Stats.new, "", ⟨[], 5⟩⟩
    ⟨"Hero", Stats.new, Stats.new, "", ⟨[], 5⟩⟩ "Hero" (strL "Victim") (strL "Rifle") 50
    rfl rfl (by decide) (by decide) (by decide) (by decide) (by decide) (by decide)
    (by decide) rfl rfl (by decide) (by decide)

/-- C6 counterexample: a method-kill line yields an immediate "You killed"
message and leaves the aggregator empty — the kill fact is not handed to the
aggregator as the claim asserts. -/
theorem method_kill_counterexample :
    (processLogLine ⟨"Hero", Stats.new, Stats.new, "", ⟨[], 5⟩⟩
        (String.mk (mkMethodKillLine (strL "Victim") (strL "Hero") (strL "Rifle"))) 50).2
      = ["You killed: Victim using Rifle"] ∧
    (processLogLine ⟨"Hero", Stats.new, Stats.new, "", ⟨[], 5⟩⟩
        (String.mk (mkMethodKillLine (strL "Victim") (strL "Hero") (strL "Rifle")))
        50).1.eventAggregator.pendingEvents = [] := by
  rw [show mkMethodKillLine (strL "Victim") (strL "Hero") (strL "Rifle")
        = mkKillLine (strL "Victim") (strL "Hero") ++ usingExt (strL "Rifle") from
      mkMethodKillLine_eq _ _ _]
  rw [processLogLine_nilAgg _ _ 50 (by decide) rfl]
  rw [vehiclePart_noop (by decide)]
  rw [killBranch_methodPos (P := "Hero") rfl (by decide) (by decide) (by decide)
    (by decide) (by decide) (by decide) (by decide)]
  exact ⟨by decide, rfl⟩

/-- C7: a `nickname="<name>"` appearance line for a name other than the
identity bumps both Appearances records and emits "Player appeared: <name>"
immediately, bypassing the aggregator. -/
theorem appearance_emitted (p : Processor) (name post : List Char)
    (hpn : p.playerName ≠ "") (hne : name ≠ []) (hall : name.all notDQuote = true)
    (hdiff : String.mk name ≠ p.playerName) :
    processAppearanceLine p (String.mk (mkNicknameLine name post))
      = ({ p with
            stats := { p.stats with appearances := bump p.stats.appearances (String.mk name) }
            sessionStats := { p.sessionStats with
              appearances := bump p.sessionStats.appearances (String.mk name) } },
         ["Player appeared: " ++ String.mk name]) := by
  simp only [processAppearanceLine, toList_mk, nickname_find hne hall]
  rw [if_neg hpn]
  simp [capStr, List.find?, hdiff]

/-- C7 witness: the appearance of "Other" while playing as "Hero". -/
theorem appearance_emitted_witness :
    ((⟨"Hero", Stats.new, Stats.new, "", ⟨[], 5⟩⟩ : Processor).playerName ≠ "") ∧
    (strL "Other" ≠ []) ∧ ((strL "Other").all notDQuote = true) ∧
    (String.mk (strL "Other")
      ≠ (⟨"Hero", Stats.new, Stats.new, "", ⟨[], 5⟩⟩ : Processor).playerName) ∧
    processAppearanceLine ⟨"Hero", Stats.new, Stats.new, "", ⟨[], 5⟩⟩
        (String.mk (mkNicknameLine (strL "Other") []))
      = ({ (⟨"Hero", Stats.new, Stats.new, "", ⟨[], 5⟩⟩ : Processor) with
            stats := { Stats.new with
              appearances := bump Stats.new.appearances (String.mk (strL "Other")) }
            sessionStats := { Stats.new with
              appearances := bump Stats.new.appearances (String.mk (strL "Other")) } },
         ["Player appeared: " ++ String.mk (strL "Other")]) :=
  ⟨by decide, by decide, by decide, by decide,
    appearance_emitted _ _ _ (by decide) (by decide) (by decide) (by decide)⟩

/-- C8 (amended): a flushed lone death fact renders as
"You were killed by: <cause> using <weapon>" whenever the weapon is non-empty
and not "unknown" (so the suicide fact, whose weapon is "suicide", takes this
form too), and as "You died by <cause>" otherwise. -/
theorem death_individual_message (P c w : String) (t : Int) (ht : t - 100 > 5) :
    flushOldEvents
        ⟨[{ etype := .playerDeath, timestamp := 100, playerName := P,
            cause := c, weapon := w }], 5⟩ t
      = ([if w ≠ "" ∧ w ≠ "unknown" then "You were killed by: " ++ c ++ " using " ++ w
          else "You died by " ++ c], ⟨[], 5⟩) := by
  rw [flush_single _ t (by simpa using ht) (summary_single_pd rfl)]
  by_cases h1 : w = ""
  · simp [createIndividualEventMessage, h1]
  · by_cases h2 : w = "unknown"
    · simp [createIndividualEventMessage, h1, h2]
    · simp [createIndividualEventMessage, h1, h2]

/-- C8 witness: the Enemy/Rifle death fact. -/
theorem death_individual_message_witness :
    ((108 : Int) - 100 > 5) ∧
    flushOldEvents
        ⟨[{ etype := .playerDeath, timestamp := 100, playerName := "Hero",
            cause := "Enemy", weapon := "Rifle" }], 5⟩ 108
      = ([if "Rifle" ≠ "" ∧ "Rifle" ≠ "unknown"
          then "You were killed by: " ++ "Enemy" ++ " using " ++ "Rifle"
          else "You died by " ++ "Enemy"], ⟨[], 5⟩) :=
  ⟨by decide, death_individual_message "Hero" "Enemy" "Rifle" 108 (by decide)⟩

/-- C8 counterexample: the suicide fact (weapon "suicide") flushes as
"You were killed by: suicide using suicide", not "You died by suicide"; and a
weaponless death renders "You died by Enemy", not "You were killed by:". -/
theorem death_message_counterexample :
    flushOldEvents
        ⟨[{ etype := .playerDeath, timestamp := 100, playerName := "Hero",
            cause := "suicide", weapon := "suicide" }], 5⟩ 108
      = (["You were killed by: suicide using suicide"], ⟨[], 5⟩) ∧
    "You were killed by: suicide using suicide" ≠ "You died by suicide" ∧
    createIndividualEventMessage
        { etype := .playerDeath, timestamp := 100,
          playerName := "Hero", cause := "Enemy", weapon := "" } = "You died by Enemy" ∧
    "You died by Enemy" ≠ "You were killed by: Enemy" := by
  refine ⟨?_, by decide, by decide, by decide⟩
  rw [flush_single _ 108 (by decide) (summary_single_pd rfl)]
  decide

/-- C9: a suicide line (victim = killer = identity) adds exactly one to
Deaths["Suicide"] in both records, leaves every other Deaths entry alone, and
never touches a Kills counter. -/
theorem suicide_line_stats (p : Processor) (P : String) (mid tail : List Char) (t : Int)
    (hname : p.playerName = P) (hP : P ≠ "") (hmid : mid.all notNewline = true) :
    ((processLogLine p (String.mk (mkSuicideLine P mid tail)) t).1.stats.deaths "Suicide"
        = p.stats.deaths "Suicide" + 1) ∧
    (∀ k, k ≠ "Suicide" →
      (processLogLine p (String.mk (mkSuicideLine P mid tail)) t).1.stats.deaths k
        = p.stats.deaths k) ∧
    ((processLogLine p (String.mk (mkSuicideLine P mid tail)) t).1.sessionStats.deaths "Suicide"
        = p.sessionStats.deaths "Suicide" + 1) ∧
    (∀ k, k ≠ "Suicide" →
      (processLogLine p (String.mk (mkSuicideLine P mid tail)) t).1.sessionStats.deaths k
        = p.sessionStats.deaths k) ∧
    (processLogLine p (String.mk (mkSuicideLine P mid tail)) t).1.stats.kills
        = p.stats.kills ∧
    (processLogLine p (String.mk (mkSuicideLine P mid tail)) t).1.sessionStats.kills
        = p.sessionStats.kills := by
  have hP' : p.playerName ≠ "" := by rw [hname]; exact hP
  rw [processLogLine_eq p _ t hP']
  have hq : (vehiclePart
      { p with lastRawLogLine := String.mk (mkSuicideLine P mid tail),
               eventAggregator := (flushOldEvents p.eventAggregator t).2 }
      (String.mk (mkSuicideLine P mid tail)) t).playerName = P := by
    rw [vehiclePart_playerName]; exact hname
  obtain ⟨hs1, hs2⟩ := vehiclePart_stats
    { p with lastRawLogLine := String.mk (mkSuicideLine P mid tail),
             eventAggregator := (flushOldEvents p.eventAggregator t).2 }
    (String.mk (mkSuicideLine P mid tail)) t
  obtain ⟨k1, k2, k3, k4⟩ := killBranch_suicide_stats hq hmid
  rw [k1, k2, k3, k4, hs1, hs2]
  refine ⟨by simp [bump], fun k hk => by simp [bump, hk], by simp [bump],
    fun k hk => by simp [bump, hk], rfl, rfl⟩

/-- C9 witness: the concrete suicide line for "Hero". -/
theorem suicide_line_stats_witness :
    ((⟨"Hero", Stats.new, Stats.new, "", ⟨[], 5⟩⟩ : Processor).playerName = "Hero") ∧
    ("Hero" ≠ "") ∧ ((strL " was ").all notNewline = true) ∧
    ((processLogLine ⟨"Hero", Stats.new, Stats.new, "", ⟨[], 5⟩⟩
        (String.mk (mkSuicideLine "Hero" (strL " was ") [])) 7).1.stats.deaths "Suicide"
      = (⟨"Hero", Stats.new, Stats.new, "", ⟨[], 5⟩⟩ : Processor).stats.deaths "Suicide" + 1) :=
  ⟨rfl, by decide, by decide,
    (suicide_line_stats ⟨"Hero", Stats.new, Stats.new, "", ⟨[], 5⟩⟩ "Hero"
      (strL " was ") [] 7 rfl (by decide) (by decide)).1⟩

/-- C10: the kill and death grammars accept different victim/killer
alphabets — a kill line whose victim name contains a character outside
`[A-Za-z0-9_]` is dropped entirely (processor unchanged, no output), while a
death line accepts any quote-free killer name: the death is recorded and the
fact buffered. -/
theorem kill_death_alphabets (p q : Processor) (P : String)
    (victim g tl w killer : List Char) (bad : Char) (t : Int)
    (hname : p.playerName = P) (hqname : q.playerName = P) (hP : P ≠ "")
    (hPw : (strL P).all isWordChar = true)
    (hbufp : p.eventAggregator = ⟨[], 5⟩)
    (hvq : victim.all notQuote = true)
    (hsplit : victim = g ++ bad :: tl) (hg : g.all isWordChar = true)
    (hbad : isWordChar bad = false) (hww : w.all isWordChar = true)
    (hcA : containsLst (strL "Corpse") (mkKillLine victim (strL P) ++ usingExt w) = false)
    (heA : containsLst (strL "Entering control state")
        (mkKillLine victim (strL P) ++ usingExt w) = false)
    (hiA : containsLst (strL "Logged an incap")
        (mkKillLine victim (strL P) ++ usingExt w) = false)
    (hvehA : containsLst (strL "CVehicle::OnAdvanceDestroyLevel")
        (mkKillLine victim (strL P) ++ usingExt w) = false)
    (hbufq : q.eventAggregator = ⟨[], 5⟩)
    (hkq : killer.all notQuote = true) (hkn : killer.all notNewline = true)
    (hkne : killer ≠ []) (hkP : strL P ≠ killer)
    (hcB : containsLst (strL "Corpse") (mkKillLine (strL P) killer) = false)
    (heB : containsLst (strL "Entering control state") (mkKillLine (strL P) killer) = false)
    (hiB : containsLst (strL "Logged an incap") (mkKillLine (strL P) killer) = false)
    (hvehB : containsLst (strL "CVehicle::OnAdvanceDestroyLevel")
        (mkKillLine (strL P) killer) = false) :
    processLogLine p (String.mk (mkKillLine victim (strL P) ++ usingExt w)) t
      = ({ p with
            lastRawLogLine := String.mk (mkKillLine victim (strL P) ++ usingExt w),
            eventAggregator := ⟨[], 5⟩ }, []) ∧
    (processLogLine q (String.mk (mkKillLine (strL P) killer)) t).2 = [] ∧
    (processLogLine q (String.mk (mkKillLine (strL P) killer)) t).1.stats.deaths
      = bump q.stats.deaths (String.mk killer) ∧
    (processLogLine q (String.mk (mkKillLine (strL P) killer))
        t).1.eventAggregator.pendingEvents
      = [{ etype := .playerDeath, timestamp := t, playerName := P,
           cause := String.mk killer, weapon := "",
           rawLine := String.mk (mkKillLine (strL P) killer),
           details := [("damageType", "")] }] := by
  have hP'p : p.playerName ≠ "" := by rw [hname]; exact hP
  have hP'q : q.playerName ≠ "" := by rw [hqname]; exact hP
  constructor
  · rw [processLogLine_nilAgg p _ t hP'p hbufp]
    rw [vehiclePart_noop (by rw [toList_mk]; exact hvehA)]
    have hname1 : ({ p with
        lastRawLogLine := String.mk (mkKillLine victim (strL P) ++ usingExt w),
        eventAggregator := (⟨[], 5⟩ : EventAggregator) } : Processor).playerName = P := hname
    rw [killBranch_methodNeg hname1 hP hPw hvq g bad tl hsplit hg hbad hww hcA heA hiA]
  · rw [processLogLine_nilAgg q _ t hP'q hbufq]
    rw [vehiclePart_noop (by rw [toList_mk]; exact hvehB)]
    have hname2 : ({ q with
        lastRawLogLine := String.mk (mkKillLine (strL P) killer),
        eventAggregator := (⟨[], 5⟩ : EventAggregator) } : Processor).playerName = P := hqname
    rw [killBranch_death hname2 hP hPw hkq hkn hkne hkP hcB heB hiB]
    exact ⟨rfl, rfl, rfl⟩

/-- C10 witness: "Bad Guy" (space in the name) is rejected as a kill victim,
while "Big-Bad Boss" is accepted as a killer. -/
theorem kill_death_alphabets_witness :
    (processLogLine ⟨"Hero", Stats.new, Stats.new, "", ⟨[], 5⟩⟩
        (String.mk (mkKillLine (strL "Bad Guy") (strL "Hero") ++ usingExt (strL "Rifle"))) 50
      = ({ (⟨"Hero", Stats.new, Stats.new, "", ⟨[], 5⟩⟩ : Processor) with
            lastRawLogLine :=
              String.mk (mkKillLine (strL "Bad Guy") (strL "Hero") ++ usingExt (strL "Rifle")),
            eventAggregator := ⟨[], 5⟩ }, [])) ∧
    (processLogLine ⟨"Hero", Stats.new, Stats.new, "", ⟨[], 5⟩⟩
        (String.mk (mkKillLine (strL "Hero") (strL "Big-Bad Boss"))) 50).2 = [] ∧
    (processLogLine ⟨"Hero", Stats.new, Stats.new, "", ⟨[], 5⟩⟩
        (String.mk (mkKillLine (strL "Hero") (strL "Big-Bad Boss"))) 50).1.stats.deaths
      = bump Stats.new.deaths (String.mk (strL "Big-Bad Boss")) ∧
    (processLogLine ⟨"Hero", Stats.new, Stats.new, "", ⟨[], 5⟩⟩
        (String.mk (mkKillLine (strL "Hero") (strL "Big-Bad Boss")))
        50).1.eventAggregator.pendingEvents
      = [{ etype := .playerDeath, timestamp := 50, playerName := "Hero",
           cause := String.mk (strL "Big-Bad Boss"), weapon := "",
           rawLine := String.mk (mkKillLine (strL "Hero") (strL "Big-Bad Boss")),
           details := [("damageType", "")] }] :=
  kill_death_alphabets ⟨"Hero", Stats.new, Stats.new, "", ⟨[], 5⟩⟩
    ⟨"Hero", Stats.new, Stats.new, "", ⟨[], 5⟩⟩ "Hero"
    (strL "Bad Guy") (strL "Bad") (strL "Guy") (strL "Rifle") (strL "Big-Bad Boss") ' ' 50
    rfl rfl (by decide) (by decide) rfl (by decide) (by decide) (by decide) (by decide)
    (by decide) (by decide) (by decide) (by decide) (by decide) rfl (by decide) (by decide)
    (by decide) (by decide) (by decide) (by decide) (by decide) (by decide)
